import Mathlib

/-!
Verification of the sales-bonus analyzer (`bonus_app_streamlit.py` and
`bonus_app_streamlit2.py`) against its natural-language specification.

The core pipeline is embedded shallowly:
* `parse_date`      — the textual date parser (`parse_date`, lines 24-31),
  including the exact CPython `strptime` field regexes for the three formats.
* `find_header_row` — the header-row scanner (lines 34-52).
* `analyze_workbook`— the aggregation pipeline (lines 88-146): row extraction,
  per-invoice grouping, the summation pass into daily statistics.
* `calculate_transaction_bonuses` — the bonus engine (lines 55-82; the copy at
  lines 57-84 of `bonus_app_streamlit2.py` is character-for-character the same
  function and is embedded by the same definition).

Python `dict`s (including `defaultdict`) are modelled as association lists with
insertion-order semantics: a write to an existing key updates it in place, a
write to a fresh key appends at the end, exactly as CPython dicts behave.
Machine numbers (int/float cell values, money amounts) are modelled as `ℚ`;
booleans (an `int` subclass in Python) are subsumed by the numeric case.
-/

namespace SalesBonus

/-! ## Calendar dates -/

/-- A calendar date, the result type of Python's `datetime.date()`. -/
structure Date where
  year : ℤ
  month : ℕ
  day : ℕ
deriving DecidableEq, Repr

/-- Leap-year rule of the proleptic Gregorian calendar (Python `calendar.isleap`). -/
def isLeap (y : ℤ) : Bool :=
  y % 4 == 0 && (y % 100 != 0 || y % 400 == 0)

/-- Number of days in a month, as `datetime` validates it. -/
def daysInMonth (y : ℤ) (m : ℕ) : ℕ :=
  if m = 2 then (if isLeap y then 29 else 28)
  else if m = 4 ∨ m = 6 ∨ m = 9 ∨ m = 11 then 30
  else 31

/-- The range Python's `datetime.date` accepts: year 1..9999, real month/day. -/
def validDate (y : ℤ) (m d : ℕ) : Prop :=
  1 ≤ y ∧ y ≤ 9999 ∧ 1 ≤ m ∧ m ≤ 12 ∧ 1 ≤ d ∧ d ≤ daysInMonth y m

instance (y : ℤ) (m d : ℕ) : Decidable (validDate y m d) := by
  unfold validDate; infer_instance

/-- Days since 1970-01-01 of a civil date (Howard Hinnant's `days_from_civil`);
the day arithmetic underlying Python `date + timedelta`. -/
def daysFromCivil (y : ℤ) (m d : ℕ) : ℤ :=
  let y' : ℤ := if m ≤ 2 then y - 1 else y
  let era : ℤ := (if 0 ≤ y' then y' else y' - 399) / 400
  let yoe : ℤ := y' - era * 400
  let mp : ℤ := ((m : ℤ) + 9) % 12
  let doy : ℤ := (153 * mp + 2) / 5 + (d : ℤ) - 1
  let doe : ℤ := yoe * 365 + yoe / 4 - yoe / 100 + doy
  era * 146097 + doe - 719468

/-- Civil date from days since 1970-01-01 (Hinnant's `civil_from_days`). -/
def civilFromDays (z : ℤ) : Date :=
  let z' : ℤ := z + 719468
  let era : ℤ := (if 0 ≤ z' then z' else z' - 146096) / 146097
  let doe : ℤ := z' - era * 146097
  let yoe : ℤ := (doe - doe / 1460 + doe / 36524 - doe / 146096) / 365
  let y : ℤ := yoe + era * 400
  let doy : ℤ := doe - (365 * yoe + yoe / 4 - yoe / 100)
  let mp : ℤ := (5 * doy + 2) / 153
  let d : ℤ := doy - (153 * mp + 2) / 5 + 1
  let m : ℤ := if mp < 10 then mp + 3 else mp - 9
  ⟨if m ≤ 2 then y + 1 else y, m.toNat, d.toNat⟩

/-! ## Cell values

An `xlsx` cell, as `openpyxl` hands it to the program with `values_only=True`:
empty (`None`), text, a number (int/float, with Python booleans subsumed as
0/1), or a native date-time value.  Only the calendar-date component of a
native date-time is ever consumed (`date_raw.date()`), so it alone is carried.
-/

inductive Cell where
  | empty
  | str (s : String)
  | num (q : ℚ)
  | date (d : Date)
deriving DecidableEq, Repr

/-- Python `str.strip()`: remove leading and trailing whitespace.  Implemented
structurally on the character list (so that concrete header rows evaluate). -/
def pyStrip (s : String) : String :=
  ⟨((s.data.dropWhile Char.isWhitespace).reverse.dropWhile Char.isWhitespace).reverse⟩

/-- Python truthiness of a cell value: `None` is falsy, `""` is falsy,
numeric zero is falsy, a datetime is always truthy. -/
def Cell.truthy : Cell → Bool
  | .empty => false
  | .str s => s != ""
  | .num q => q != 0
  | .date _ => true

/-- Python `str(value)` for a cell, used only while building the header map.
The exact rendering of numeric and date cells is immaterial to every claim
(required labels are fixed Hebrew words); any definite rendering serves. -/
def Cell.toStr : Cell → String
  | .empty => ""
  | .str s => s
  | .num q => toString q
  | .date d => toString d.year ++ "-" ++ toString d.month ++ "-" ++ toString d.day

/-! ## Association lists with CPython dict semantics

`alistGet?` reads the first (and, for lists built by `alistUpd`, only)
occurrence of a key.  `alistUpd l k dflt f` models `d[k] = f(d.get(k, dflt))`
on a dict / `defaultdict`: an existing key is updated in place, a fresh key is
appended at the end, preserving insertion order.
-/

def alistGet? [DecidableEq α] (l : List (α × β)) (k : α) : Option β :=
  match l with
  | [] => none
  | (k', v) :: rest => if k' = k then some v else alistGet? rest k

def alistGetD [DecidableEq α] (l : List (α × β)) (k : α) (dflt : β) : β :=
  (alistGet? l k).getD dflt

def alistUpd [DecidableEq α] (l : List (α × β)) (k : α) (dflt : β) (f : β → β) :
    List (α × β) :=
  match l with
  | [] => [(k, f dflt)]
  | (k', v) :: rest =>
    if k' = k then (k', f v) :: rest else (k', v) :: alistUpd rest k dflt f

/-- Keys of an association list, in order. -/
def alistKeys (l : List (α × β)) : List α := l.map (·.1)

/-! ## `parse_date` (source lines 24-31)

The source tries `datetime.strptime(date_str, fmt)` for the formats
`"%d/%m/%Y %H:%M"`, `"%Y-%m-%d"`, `"%d/%m/%Y"` in order, returning the date
component of the first success and `None` when all fail.

CPython's `_strptime` compiles each directive to a regex fragment and requires
the whole string to be consumed:
  `%d ↦ 3[01]|[12]\d|0[1-9]|[1-9]`, `%m ↦ 1[0-2]|0[1-9]|[1-9]`,
  `%Y ↦ \d\d\d\d`, `%H ↦ 2[0-3]|[0-1]\d|\d`, `%M ↦ [0-5]\d|\d`,
whitespace in the format matches one or more whitespace characters, and any
other character matches itself.  For these three formats every digit group is
followed by a non-digit literal or the end of the string, so ordered-
alternation matching without backtracking (implemented below) coincides with
the regex engine.  (`\d` is modelled as the ASCII digits; non-ASCII Unicode
decimal digits are outside the model.)  A successful regex match is then fed
to the `datetime` constructor, which raises — sending `strptime` to the next
format — unless the field values form a real in-range date.
-/

def digVal (c : Char) : ℕ := c.toNat - 48

/-- Directive `%d`: `3[01]|[12]\d|0[1-9]|[1-9]`, alternatives tried in order. -/
def matchD : List Char → Option (ℕ × List Char)
  | c1 :: c2 :: rest =>
    if c1 = '3' ∧ (c2 = '0' ∨ c2 = '1') then some (30 + digVal c2, rest)
    else if (c1 = '1' ∨ c1 = '2') ∧ c2.isDigit then
      some (digVal c1 * 10 + digVal c2, rest)
    else if c1 = '0' ∧ ('1' ≤ c2 ∧ c2 ≤ '9') then some (digVal c2, rest)
    else if '1' ≤ c1 ∧ c1 ≤ '9' then some (digVal c1, c2 :: rest)
    else none
  | [c1] => if '1' ≤ c1 ∧ c1 ≤ '9' then some (digVal c1, []) else none
  | [] => none

/-- Directive `%m`: `1[0-2]|0[1-9]|[1-9]`. -/
def matchM : List Char → Option (ℕ × List Char)
  | c1 :: c2 :: rest =>
    if c1 = '1' ∧ ('0' ≤ c2 ∧ c2 ≤ '2') then some (10 + digVal c2, rest)
    else if c1 = '0' ∧ ('1' ≤ c2 ∧ c2 ≤ '9') then some (digVal c2, rest)
    else if '1' ≤ c1 ∧ c1 ≤ '9' then some (digVal c1, c2 :: rest)
    else none
  | [c1] => if '1' ≤ c1 ∧ c1 ≤ '9' then some (digVal c1, []) else none
  | [] => none

/-- Directive `%Y`: exactly four digits. -/
def matchY : List Char → Option (ℕ × List Char)
  | c1 :: c2 :: c3 :: c4 :: rest =>
    if c1.isDigit ∧ c2.isDigit ∧ c3.isDigit ∧ c4.isDigit then
      some (digVal c1 * 1000 + digVal c2 * 100 + digVal c3 * 10 + digVal c4, rest)
    else none
  | _ => none

/-- Directive `%H`: `2[0-3]|[0-1]\d|\d`. -/
def matchH : List Char → Option (ℕ × List Char)
  | c1 :: c2 :: rest =>
    if c1 = '2' ∧ ('0' ≤ c2 ∧ c2 ≤ '3') then some (20 + digVal c2, rest)
    else if (c1 = '0' ∨ c1 = '1') ∧ c2.isDigit then
      some (digVal c1 * 10 + digVal c2, rest)
    else if c1.isDigit then some (digVal c1, c2 :: rest)
    else none
  | [c1] => if c1.isDigit then some (digVal c1, []) else none
  | [] => none

/-- Directive `%M`: `[0-5]\d|\d`. -/
def matchMin : List Char → Option (ℕ × List Char)
  | c1 :: c2 :: rest =>
    if ('0' ≤ c1 ∧ c1 ≤ '5') ∧ c2.isDigit then
      some (digVal c1 * 10 + digVal c2, rest)
    else if c1.isDigit then some (digVal c1, c2 :: rest)
    else none
  | [c1] => if c1.isDigit then some (digVal c1, []) else none
  | [] => none

/-- A literal, non-whitespace format character matches itself. -/
def matchLit (c : Char) : List Char → Option (List Char)
  | x :: rest => if x = c then some rest else none
  | [] => none

/-- Whitespace in the format becomes `\s+`: one or more whitespace characters,
matched greedily (the following directive always starts with a digit). -/
def matchWs : List Char → Option (List Char)
  | c :: rest =>
    if c.isWhitespace then some (rest.dropWhile Char.isWhitespace) else none
  | [] => none

/-- The shared `%d/%m/%Y` front of the first and third formats. -/
def runDMY (s : List Char) : Option (ℕ × ℕ × ℕ × List Char) := do
  let (d, s) ← matchD s
  let s ← matchLit '/' s
  let (m, s) ← matchM s
  let s ← matchLit '/' s
  let (y, s) ← matchY s
  pure (d, m, y, s)

/-- The `datetime` constructor: `some` exactly on real in-range dates, the
`ValueError` branch of `strptime` otherwise. -/
def mkValidDate (y m d : ℕ) : Option Date :=
  if validDate (y : ℤ) m d then some ⟨(y : ℤ), m, d⟩ else none

/-- Format `"%d/%m/%Y %H:%M"`; the time component is discarded by `.date()`. -/
def strpDMYHM (s : String) : Option Date := do
  let (d, m, y, s) ← runDMY s.toList
  let s ← matchWs s
  let (_, s) ← matchH s
  let s ← matchLit ':' s
  let (_, s) ← matchMin s
  if s.isEmpty then mkValidDate y m d else none

/-- Format `"%Y-%m-%d"`. -/
def strpYMD (s : String) : Option Date := do
  let (y, s) ← matchY s.toList
  let s ← matchLit '-' s
  let (m, s) ← matchM s
  let s ← matchLit '-' s
  let (d, s) ← matchD s
  if s.isEmpty then mkValidDate y m d else none

/-- Format `"%d/%m/%Y"`. -/
def strpDMY (s : String) : Option Date := do
  let (d, m, y, s) ← runDMY s.toList
  if s.isEmpty then mkValidDate y m d else none

/-- Embeds `parse_date` (lines 24-31): the three formats are tried in order,
the first successful parse wins, and `None` is returned when all fail. -/
def parse_date (s : String) : Option Date :=
  match strpDMYHM s with
  | some d => some d
  | none =>
    match strpYMD s with
    | some d => some d
    | none => strpDMY s

/-! ## Spreadsheet serial numbers (`openpyxl.utils.datetime.from_excel`)

External library call, modelled from the library's documented Windows-1900
convention: `day, fraction = divmod(value, 1)`; the fraction is turned into
seconds with Python `round` (half-to-even) and the result is added to the
epoch 1899-12-30 with `timedelta`; serials in the open intervals (0,1) and
(59,61) — the 1900 leap-bug window — are shifted back one day.  Python
`datetime` range errors for astronomically out-of-range serials are outside
the model (the conversion here is total). -/

/-- Days since 1970-01-01 of the Windows-1900 epoch 1899-12-30. -/
def EPOCH_1900 : ℤ := daysFromCivil 1899 12 30

/-- Python `round`: nearest integer, ties to the even neighbour. -/
def rndHE (q : ℚ) : ℤ :=
  let f := ⌊q⌋
  let r := q - (f : ℚ)
  if r < 1 / 2 then f
  else if 1 / 2 < r then f + 1
  else if f % 2 = 0 then f else f + 1

/-- Models `from_excel(value).date()`: the calendar-date component of the
converted serial. -/
def from_excel_date (v : ℚ) : Date :=
  let day := ⌊v⌋
  let fraction := v - (day : ℚ)
  let secs := rndHE (fraction * 86400)
  let carry := secs / 86400
  let adj : ℤ := if (0 < v ∧ v < 1) ∨ (59 < v ∧ v < 61) then 1 else 0
  civilFromDays (EPOCH_1900 + day + carry - adj)

/-! ## Date normalization (source lines 120-129)

The `isinstance` dispatch inside the row loop of `analyze_workbook`:
a native date-time value contributes its date component, a number goes
through `from_excel`, text goes through `parse_date`, anything else
(in particular an empty cell) yields `None`. -/

def normalizeDate : Cell → Option Date
  | .date d => some d
  | .num v => some (from_excel_date v)
  | .str s => parse_date s
  | .empty => none

/-! ## Header location (source lines 34-52) -/

/-- The required column labels (`REQUIRED_COLS`, line 18): invoice number,
salesperson, date, net unit price. -/
def REQUIRED_COLS : List String := ["מספר חשבונית", "מוכרן", "תאריך", "מחיר נטו ליחידה"]

/-- The optional quantity column label (`QUANTITY_COL_NAME`, line 16). -/
def QUANTITY_COL_NAME : String := "כמות"

/-- The fixed message of the `KeyError` raised when no header row is found
(line 52): "no suitable header row was found in the file (required columns
were not located together)". -/
def headerErrMsg : String := "לא נמצאה שורת כותרות מתאימה בקובץ (עמודות חובה לא אותרו יחד)."

/-- One pass of the inner loop of `find_header_row`: build the label → column
index map of a row from its non-empty cells, keyed by the whitespace-trimmed
`str(value)`; blank keys are dropped, and a duplicate label overwrites the
earlier entry (so the last occurrence wins), keeping the dict position of the
first. -/
def colStep (m : List (String × ℕ)) (p : ℕ × Cell) : List (String × ℕ) :=
  if p.2 = .empty then m
  else
    let key := pyStrip p.2.toStr
    if key == "" then m else alistUpd m key 0 (fun _ => p.1)

def buildColIdx (row : List Cell) : List (String × ℕ) :=
  (row.enum).foldl colStep []

/-- The acceptance test of `find_header_row` (line 49): a non-empty map whose
key set is a superset of the required labels. -/
def headerAccept (required : List String) (m : List (String × ℕ)) : Bool :=
  !m.isEmpty && required.all (fun c => (alistGet? m c).isSome)

def findHeaderGo (required : List String) :
    List (List Cell) → ℕ → Except String (ℕ × List (String × ℕ))
  | [], _ => .error headerErrMsg
  | row :: rest, i =>
    let m := buildColIdx row
    if headerAccept required m then .ok (i, m) else findHeaderGo required rest (i + 1)

/-- Embeds `find_header_row` (lines 34-52): scan the rows top-to-bottom
(1-based, `enumerate(..., start=1)`), return the first row whose label map
passes `headerAccept`, and raise the fixed-message `KeyError` when none does. -/
def find_header_row (sheet : List (List Cell)) (required : List String) :
    Except String (ℕ × List (String × ℕ)) :=
  findHeaderGo required sheet 1

/-! ## Transaction aggregation (source lines 88-146) -/

/-- The column positions `analyze_workbook` reads through `col_idx`.
`find_header_row` guarantees every required label is present, so the `getD 0`
defaults below are never reached in the real flow; `qtyIdx` is `none` exactly
when the optional quantity column is absent (`col_idx[QUANTITY_COL_NAME] =
None`, lines 100-101). -/
structure ColMap where
  invIdx : ℕ
  empIdx : ℕ
  dateIdx : ℕ
  unitIdx : ℕ
  qtyIdx : Option ℕ
deriving Repr

def mkColMap (m : List (String × ℕ)) : ColMap :=
  { invIdx := alistGetD m "מספר חשבונית" 0
    empIdx := alistGetD m "מוכרן" 0
    dateIdx := alistGetD m "תאריך" 0
    unitIdx := alistGetD m "מחיר נטו ליחידה" 0
    qtyIdx := alistGet? m QUANTITY_COL_NAME }

/-- Reading `row[i]`: `openpyxl` pads a short row with `None` cells up to the
sheet width, so a missing position is the empty cell. -/
def readCell (row : List Cell) (i : ℕ) : Cell := row.getD i .empty

/-- Quantity resolution (lines 113-117): `row[qty] or 1` when the column
exists — a falsy cell (empty, 0, "") becomes the int 1 — and 1 outright when
it does not. -/
def resolveQty (cm : ColMap) (row : List Cell) : Cell :=
  match cm.qtyIdx with
  | some i => let c := readCell row i; if c.truthy then c else .num 1
  | none => .num 1

/-- Python `unit * qty` (line 132).  Defined on numeric operands; any other
operand combination is modelled as a `TypeError` (Python raises for float
operands; the `int * str` string-repetition corner, which would instead fail
later in `sum()`, is folded into the same error). -/
def cellMulQ : Cell → Cell → Option ℚ
  | .num a, .num b => some (a * b)
  | _, _ => none

/-- One accepted data row, after extraction: the raw employee cell, the
normalized date, the raw invoice-identifier cell, and the line amount. -/
structure LineItem where
  emp : Cell
  date : Date
  inv : Cell
  amt : ℚ
deriving DecidableEq, Repr

/-- The body of the row loop (lines 107-133) for one row: resolve the four
required cells and the quantity, normalize the date (`continue` on failure),
skip rows with a falsy employee or a `None` unit price, and otherwise emit
the line item whose amount is `unit * qty`. -/
def extractRow (cm : ColMap) (row : List Cell) : Except String (Option LineItem) :=
  let invoice := readCell row cm.invIdx
  let emp := readCell row cm.empIdx
  let dateRaw := readCell row cm.dateIdx
  let unit := readCell row cm.unitIdx
  let qty := resolveQty cm row
  match normalizeDate dateRaw with
  | none => .ok none
  | some date =>
    if emp.truthy ∧ unit ≠ .empty then
      match cellMulQ unit qty with
      | some amt => .ok (some ⟨emp, date, invoice, amt⟩)
      | none => .error "TypeError"
    else .ok none

/-- `per_invoice`: employee cell → (date, invoice cell) → list of line
amounts, with dict insertion order. -/
abbrev PerInvoice := List (Cell × List ((Date × Cell) × List ℚ))

/-- `per_invoice[emp][(date, invoice)].append(line_total)` (line 133). -/
def addLine (pi : PerInvoice) (it : LineItem) : PerInvoice :=
  alistUpd pi it.emp []
    (fun inner => alistUpd inner (it.date, it.inv) [] (· ++ [it.amt]))

/-- One iteration of the row loop on the accumulated `per_invoice` state:
a skipped row leaves the state untouched, an accepted row adds its line item,
a type error aborts. -/
def aggStep (cm : ColMap) (pi : PerInvoice) (row : List Cell) :
    Except String PerInvoice :=
  match extractRow cm row with
  | .error e => .error e
  | .ok none => .ok pi
  | .ok (some it) => .ok (addLine pi it)

/-- The full row loop: fold `aggStep` over the data rows, accumulating
accepted line items into `per_invoice`. -/
def aggRows (cm : ColMap) (rows : List (List Cell)) : Except String PerInvoice :=
  rows.foldlM (aggStep cm) []

/-- `transactions_count`: employee cell → date → count. -/
abbrev TransCount := List (Cell × List (Date × ℕ))

/-- `daily_totals`: employee cell → date → list of invoice totals. -/
abbrev DailyTotals := List (Cell × List (Date × List ℚ))

/-- The summation pass (lines 136-140): for every employee and every
(date, invoice) group, in insertion order, sum the group's line amounts into
one transaction total, increment that day's transaction count, and append the
total to that day's list. -/
def sumPassInner (e : Cell) (inner : List ((Date × Cell) × List ℚ))
    (st : TransCount × DailyTotals) : TransCount × DailyTotals :=
  inner.foldl
    (fun (st : TransCount × DailyTotals) (g : (Date × Cell) × List ℚ) =>
      (alistUpd st.1 e [] (fun m => alistUpd m g.1.1 0 (· + 1)),
       alistUpd st.2 e [] (fun m => alistUpd m g.1.1 [] (· ++ [g.2.sum]))))
    st

def sumPass (pi : PerInvoice) : TransCount × DailyTotals :=
  pi.foldl (fun st e => sumPassInner e.1 e.2 st) ([], [])

/-! ## Bonus engine (`calculate_transaction_bonuses`, lines 55-82; identical
at lines 57-84 of `bonus_app_streamlit2.py`) -/

def BONUS_OVER_400 : ℚ := 20
def BONUS_OVER_700 : ℚ := 10
def BONUS_AVG_130 : ℚ := 20
def BONUS_AVG_140 : ℚ := 25
def BONUS_AVG_150 : ℚ := 35

/-- Category label "bonus for transactions over 400". -/
def catOver400 : String := "בונוס על עסקאות מעל 400"

/-- Category label "bonus for transactions over 700". -/
def catOver700 : String := "בונוס על עסקאות מעל 700"

/-- Category label "bonus for average transaction". -/
def catAvg : String := "בונוס על ממוצע עסקה"

/-- `bonuses`: employee cell → total; `details`: employee cell → category →
amount; both `defaultdict`s starting from 0. -/
structure BonusState where
  bonuses : List (Cell × ℚ)
  details : List (Cell × List (String × ℚ))
deriving Repr

/-- `bonuses[emp] += amt` paired with `details[emp][cat] += amt`. -/
def addBonus (st : BonusState) (emp : Cell) (cat : String) (amt : ℚ) : BonusState :=
  { bonuses := alistUpd st.bonuses emp 0 (· + amt)
    details := alistUpd st.details emp [] (fun inner => alistUpd inner cat 0 (· + amt)) }

/-- Reading `transactions_count[emp][date]` (line 61): a missing entry reads
as the `defaultdict` default 0 (the lookup's auto-insertion into the count map
is unobservable — the engine never returns that map). -/
def countOf (tc : TransCount) (emp : Cell) (d : Date) : ℕ :=
  alistGetD (alistGetD tc emp []) d 0

/-- The body of the per-day loop (lines 61-80): the day's average (guarded
against a zero count), the two independent per-transaction thresholds for
every total, then the exclusive average-tier chain. -/
def threshStep (emp : Cell) (st : BonusState) (total : ℚ) : BonusState :=
  let st := if total > 400 then addBonus st emp catOver400 BONUS_OVER_400 else st
  if total > 700 then addBonus st emp catOver700 BONUS_OVER_700 else st

def bonusStep (tc : TransCount) (st : BonusState) (emp : Cell) (d : Date)
    (totals : List ℚ) : BonusState :=
  let cnt := countOf tc emp d
  let avg : ℚ := if cnt ≠ 0 then totals.sum / (cnt : ℚ) else 0
  let st := totals.foldl (threshStep emp) st
  if avg > 150 then addBonus st emp catAvg BONUS_AVG_150
  else if avg > 140 then addBonus st emp catAvg BONUS_AVG_140
  else if avg > 130 then addBonus st emp catAvg BONUS_AVG_130
  else st

/-- The inner `for date, totals in daily.items()` loop body. -/
def dayStep (tc : TransCount) (e : Cell) (st : BonusState) (p : Date × List ℚ) :
    BonusState :=
  bonusStep tc st e p.1 p.2

/-- The outer `for emp, daily in sales_data.items()` loop body. -/
def empStep (tc : TransCount) (st : BonusState)
    (x : Cell × List (Date × List ℚ)) : BonusState :=
  x.2.foldl (dayStep tc x.1) st

/-- Embeds `calculate_transaction_bonuses` (lines 55-82 of
`bonus_app_streamlit.py` and, character for character, lines 57-84 of
`bonus_app_streamlit2.py`). -/
def calculate_transaction_bonuses (sales_data : DailyTotals) (tc : TransCount) :
    BonusState :=
  sales_data.foldl (empStep tc) ⟨[], []⟩

/-! ## The full pipeline (`analyze_workbook`, lines 88-146) -/

structure AnalyzeResult where
  bonuses : List (Cell × ℚ)
  details : List (Cell × List (String × ℚ))
  daily_totals : DailyTotals
  transactions_count : TransCount
deriving Repr

/-- Embeds `analyze_workbook` on the active sheet's cell grid: locate the
header, aggregate the rows strictly below it, run the summation pass, feed
the statistics to the bonus engine. -/
def analyze_workbook (sheet : List (List Cell)) : Except String AnalyzeResult := do
  let (headerRow, colIdx) ← find_header_row sheet REQUIRED_COLS
  let cm := mkColMap colIdx
  let pi ← aggRows cm (sheet.drop headerRow)
  let (tc, dt) := sumPass pi
  let st := calculate_transaction_bonuses dt tc
  pure ⟨st.bonuses, st.details, dt, tc⟩

/-! ## Claim-side vocabulary

Definitions below restate notions in the spec's own terms (distinct invoice
identifiers seen, last occurrence of a label, the calendar date denoted by a
serial, the average-tier table, canonical format renderings); the theorems
relate them to the embedded source functions. -/

/-- Duplicate removal keeping the first occurrence of each element — the key
order of a Python dict. -/
def firstDedup [DecidableEq α] : List α → List α
  | [] => []
  | a :: l => a :: firstDedup (l.filter (fun x => decide (x ≠ a)))
termination_by l => l.length
decreasing_by
  simp only [List.length_cons]
  exact Nat.lt_succ_of_le (List.length_filter_le _ _)

/-- The line items the aggregator accepts (rows surviving every skip rule),
in sheet order. -/
def acceptedItems (cm : ColMap) (rows : List (List Cell)) : List LineItem :=
  rows.filterMap (fun r => match extractRow cm r with | .ok o => o | .error _ => none)

/-- The (date, invoice) keyed line amounts of one employee, in sheet order. -/
def itemsForE (items : List LineItem) (e : Cell) : List ((Date × Cell) × ℚ) :=
  (items.filter (fun it => decide (it.emp = e))).map (fun it => ((it.date, it.inv), it.amt))

/-- What the `per_invoice` entry of employee `e` must be: one group per
distinct (date, invoice) key in first-seen order, holding that key's line
amounts in sheet order. -/
def groupForE (items : List LineItem) (e : Cell) : List ((Date × Cell) × List ℚ) :=
  (firstDedup ((itemsForE items e).map (·.1))).map
    (fun k => (k, ((itemsForE items e).filter (fun p => decide (p.1 = k))).map (·.2)))

/-- The invoice identifiers seen for one employee/day, in sheet order, with
repetitions. -/
def invoicesSeen (items : List LineItem) (e : Cell) (d : Date) : List Cell :=
  (items.filter (fun it => decide (it.emp = e ∧ it.date = d))).map (·.inv)

/-- The distinct invoice identifiers seen for one employee/day, in first-seen
order. -/
def distinctInvoices (items : List LineItem) (e : Cell) (d : Date) : List Cell :=
  firstDedup (invoicesSeen items e d)

/-- The line amounts (unit price × quantity) of the line items composing one
invoice of one employee/day, in sheet order. -/
def amountsFor (items : List LineItem) (e : Cell) (d : Date) (inv : Cell) : List ℚ :=
  (items.filter (fun it => decide (it.emp = e ∧ it.date = d ∧ it.inv = inv))).map (·.amt)

/-- Whether a cell is a non-empty cell carrying the (trimmed) label `lbl`. -/
def matchKey (c : Cell) (lbl : String) : Bool :=
  if c = .empty then false else pyStrip c.toStr == lbl

/-- The column index of the last occurrence of label `lbl` in a row. -/
def lastMatchIdx (row : List Cell) (lbl : String) : Option ℕ :=
  ((row.enum.filter (fun p => matchKey p.2 lbl)).map (·.1)).getLast?

/-- The calendar date denoted by a spreadsheet serial in the Windows-1900
system: day 0 is the epoch 1899-12-30.  (Serials 61 and above are the ones
unambiguously denoting calendar dates; 1..60 fall in the Excel 1900 leap-bug
window.) -/
def serialDate (n : ℤ) : Date :=
  civilFromDays (EPOCH_1900 + n)

/-- The average-tier table of the spec: highest matching strict threshold
wins, lower tiers do not stack. -/
def avgTier (avg : ℚ) : ℚ :=
  if avg > 150 then BONUS_AVG_150
  else if avg > 140 then BONUS_AVG_140
  else if avg > 130 then BONUS_AVG_130
  else 0

/-- The count of totals strictly above a threshold. -/
def nOver (t : ℚ) (l : List ℚ) : ℕ :=
  (l.filter (fun x => decide (x > t))).length

/-- The digit character of `n < 10`. -/
def dc (n : ℕ) : Char := Char.ofNat (48 + n)

/-- Canonical zero-padded two-digit rendering. -/
def pad2 (n : ℕ) : List Char := [dc (n / 10), dc (n % 10)]

/-- Canonical zero-padded four-digit rendering. -/
def pad4 (n : ℕ) : List Char :=
  [dc (n / 1000), dc (n / 100 % 10), dc (n / 10 % 10), dc (n % 10)]

/-- A date rendered in the `day/month/year` format. -/
def fmtDMY (y m d : ℕ) : String :=
  ⟨pad2 d ++ '/' :: pad2 m ++ '/' :: pad4 y⟩

/-- A date rendered in the `year-month-day` format. -/
def fmtYMD (y m d : ℕ) : String :=
  ⟨pad4 y ++ '-' :: pad2 m ++ '-' :: pad2 d⟩

/-- A date-time rendered in the `day/month/year hour:minute` format. -/
def fmtDMYHM (y m d h mi : ℕ) : String :=
  ⟨pad2 d ++ '/' :: pad2 m ++ '/' :: pad4 y ++ ' ' :: pad2 h ++ ':' :: pad2 mi⟩

/-- Sum of the per-category amounts of one employee's breakdown. -/
def sumValues (l : List (String × ℚ)) : ℚ :=
  (l.map (·.2)).sum

/-- Reading `daily_totals[emp][date]`, empty for a missing entry. -/
def dailyOf (dt : DailyTotals) (e : Cell) (d : Date) : List ℚ :=
  alistGetD (alistGetD dt e []) d []

/-- Reading an employee's total bonus, 0 for a missing entry. -/
def totalOf (st : BonusState) (e : Cell) : ℚ :=
  alistGetD st.bonuses e 0

/-- Reading one category of an employee's bonus breakdown, 0 when absent. -/
def detailOf (st : BonusState) (e : Cell) (c : String) : ℚ :=
  alistGetD (alistGetD st.details e []) c 0

/-- The books-balance invariant: an employee's recorded total equals the sum
of their category breakdown. -/
def InvB (st : BonusState) : Prop :=
  ∀ e, totalOf st e = sumValues (alistGetD st.details e [])

/-! ## Concrete examples used by several claims -/

/-- The employee "A" of the spec's end-to-end example. -/
def empA : Cell := .str "A"

/-- A fixed example calendar date. -/
def dEx : Date := ⟨2024, 1, 15⟩

/-- A transaction-count table giving employee "A" one transaction on `dEx`. -/
def tcOne : TransCount := [(empA, [(dEx, 1)])]

/-- The sheet of the spec's end-to-end example: a header row followed by the
three line items of employee "A" — invoice 1 with items (unit 100, qty 2) and
(unit 50, qty 1), invoice 2 with one item (unit 800, qty 1). -/
def sheetC1 : List (List Cell) :=
  [[.str "מספר חשבונית", .str "מוכרן", .str "תאריך", .str "מחיר נטו ליחידה", .str "כמות"],
   [.num 1, .str "A", .date dEx, .num 100, .num 2],
   [.num 1, .str "A", .date dEx, .num 50, .num 1],
   [.num 2, .str "A", .date dEx, .num 800, .num 1]]

/-- The header map `find_header_row` builds from `sheetC1`'s first row. -/
def colIdxC1 : List (String × ℕ) :=
  [("מספר חשבונית", 0), ("מוכרן", 1), ("תאריך", 2), ("מחיר נטו ליחידה", 3), ("כמות", 4)]

/-- The `per_invoice` state after `sheetC1`'s rows, with the line amounts as
the unreduced products the fold stores. -/
def piC1raw : PerInvoice :=
  [(empA, [((dEx, .num 1), [100 * 2, 50 * 1]), ((dEx, .num 2), [800 * 1])])]

/-- The same state with the amounts written as numerals. -/
def piC1 : PerInvoice :=
  [(empA, [((dEx, .num 1), [200, 50]), ((dEx, .num 2), [800])])]

/-- A header row with surrounding whitespace and a duplicated label: "מוכרן"
occurs (trimmed) at columns 0 and 4. -/
def rowC3 : List Cell :=
  [.str " מוכרן ", .str "מספר חשבונית", .str "תאריך", .str "מחיר נטו ליחידה",
   .str "מוכרן"]

/-- A sheet whose first row is a free-text title and whose second row is the
header. -/
def sheetC3 : List (List Cell) :=
  [[.str "שלום"], rowC3]

/-! ## Association-list laws -/

theorem alistGet?_nil [DecidableEq α] (k : α) :
    alistGet? ([] : List (α × β)) k = none := rfl

theorem alistGet?_cons [DecidableEq α] (k' : α) (v : β) (l : List (α × β)) (k : α) :
    alistGet? ((k', v) :: l) k = if k' = k then some v else alistGet? l k := rfl

theorem alistUpd_nil [DecidableEq α] (k : α) (dflt : β) (f : β → β) :
    alistUpd ([] : List (α × β)) k dflt f = [(k, f dflt)] := rfl

theorem alistUpd_cons_self [DecidableEq α] (k : α) (v : β) (rest : List (α × β))
    (dflt : β) (f : β → β) :
    alistUpd ((k, v) :: rest) k dflt f = (k, f v) :: rest := by
  simp [alistUpd]

theorem alistUpd_cons_ne [DecidableEq α] (k₀ k : α) (v : β) (rest : List (α × β))
    (dflt : β) (f : β → β) (h : k₀ ≠ k) :
    alistUpd ((k₀, v) :: rest) k dflt f = (k₀, v) :: alistUpd rest k dflt f := by
  simp [alistUpd, h]

theorem alistGetD_cons [DecidableEq α] (k' : α) (v : β) (l : List (α × β)) (k : α)
    (dflt : β) :
    alistGetD ((k', v) :: l) k dflt = if k' = k then v else alistGetD l k dflt := by
  rw [alistGetD, alistGet?_cons]
  split <;> rfl

theorem alistGet?_upd_self [DecidableEq α] (l : List (α × β)) (k : α) (dflt : β)
    (f : β → β) : alistGet? (alistUpd l k dflt f) k = some (f (alistGetD l k dflt)) := by
  induction l with
  | nil => simp [alistUpd, alistGet?, alistGetD]
  | cons p rest ih =>
    obtain ⟨k', v⟩ := p
    by_cases h : k' = k
    · subst h
      simp [alistUpd, alistGet?, alistGetD]
    · simp [alistUpd, alistGet?, alistGetD, h] at ih ⊢
      exact ih

theorem alistGet?_upd_ne [DecidableEq α] (l : List (α × β)) (k k' : α) (dflt : β)
    (f : β → β) (h : k' ≠ k) :
    alistGet? (alistUpd l k dflt f) k' = alistGet? l k' := by
  induction l with
  | nil =>
    rw [alistUpd_nil, alistGet?_cons, if_neg (Ne.symm h), alistGet?_nil]
  | cons p rest ih =>
    obtain ⟨k₀, v⟩ := p
    by_cases hk : k₀ = k
    · subst hk
      rw [alistUpd_cons_self, alistGet?_cons, alistGet?_cons,
        if_neg (Ne.symm h), if_neg (Ne.symm h)]
    · rw [alistUpd_cons_ne _ _ _ _ _ _ hk, alistGet?_cons, alistGet?_cons]
      by_cases hk' : k₀ = k'
      · simp [hk']
      · simp [hk', ih]

theorem alistGetD_upd_self [DecidableEq α] (l : List (α × β)) (k : α) (dflt dflt' : β)
    (f : β → β) : alistGetD (alistUpd l k dflt f) k dflt' = f (alistGetD l k dflt) := by
  simp [alistGetD, alistGet?_upd_self]

theorem alistGetD_upd_ne [DecidableEq α] (l : List (α × β)) (k k' : α) (dflt dflt' : β)
    (f : β → β) (h : k' ≠ k) :
    alistGetD (alistUpd l k dflt f) k' dflt' = alistGetD l k' dflt' := by
  simp [alistGetD, alistGet?_upd_ne _ _ _ _ _ h]

theorem alistGet?_eq_none_of_not_mem [DecidableEq α] (l : List (α × β)) (k : α)
    (h : k ∉ alistKeys l) : alistGet? l k = none := by
  induction l with
  | nil => rfl
  | cons p rest ih =>
    obtain ⟨k₀, v⟩ := p
    simp only [alistKeys, List.map_cons, List.mem_cons] at h
    push_neg at h
    rw [alistGet?_cons, if_neg (Ne.symm h.1), ih (by simpa [alistKeys] using h.2)]

theorem alistKeys_upd [DecidableEq α] (l : List (α × β)) (k : α) (dflt : β)
    (f : β → β) :
    alistKeys (alistUpd l k dflt f) =
      if k ∈ alistKeys l then alistKeys l else alistKeys l ++ [k] := by
  induction l with
  | nil => simp [alistUpd, alistKeys]
  | cons p rest ih =>
    obtain ⟨k₀, v⟩ := p
    by_cases hk : k₀ = k
    · subst hk
      simp [alistUpd, alistKeys]
    · simp only [alistUpd, if_neg hk, alistKeys, List.map_cons] at ih ⊢
      rw [ih]
      by_cases hmem : k ∈ List.map Prod.fst rest
      · simp [hmem, Ne.symm hk]
      · simp [hmem, Ne.symm hk]

/-! ## `firstDedup` laws -/

theorem mem_firstDedup [DecidableEq α] (l : List α) (a : α) :
    a ∈ firstDedup l ↔ a ∈ l := by
  induction l using firstDedup.induct with
  | case1 => simp [firstDedup]
  | case2 b l ih =>
    rw [firstDedup]
    by_cases h : a = b
    · simp [h]
    · simp only [List.mem_cons, h, false_or, ih, List.mem_filter]
      simp [h]

theorem nodup_firstDedup [DecidableEq α] (l : List α) : (firstDedup l).Nodup := by
  induction l using firstDedup.induct with
  | case1 => simp [firstDedup]
  | case2 b l ih =>
    rw [firstDedup]
    refine List.Nodup.cons ?_ ih
    intro hmem
    rw [mem_firstDedup] at hmem
    simp at hmem

theorem firstDedup_append_singleton [DecidableEq α] (l : List α) (a : α) :
    firstDedup (l ++ [a]) =
      if a ∈ l then firstDedup l else firstDedup l ++ [a] := by
  induction l using firstDedup.induct with
  | case1 => simp [firstDedup]
  | case2 b l ih =>
    by_cases hab : a = b
    · subst hab
      rw [List.cons_append, firstDedup, firstDedup]
      simp [List.filter_append]
    · rw [List.cons_append, firstDedup, firstDedup, List.filter_append]
      have hfa : [a].filter (fun x => decide (x ≠ b)) = [a] := by simp [hab]
      rw [hfa, ih]
      by_cases hmem : a ∈ l
      · simp [hmem, List.mem_filter, hab]
      · have : a ∉ l.filter (fun x => decide (x ≠ b)) := by
          simp [List.mem_filter, hmem]
        simp [hmem, this, hab]

theorem firstDedup_filter [DecidableEq α] (p : α → Bool) (l : List α) :
    firstDedup (l.filter p) = (firstDedup l).filter p := by
  induction l using firstDedup.induct with
  | case1 => simp [firstDedup]
  | case2 b l ih =>
    by_cases hb : p b
    · rw [List.filter_cons_of_pos hb, firstDedup, firstDedup, List.filter_cons_of_pos hb]
      congr 1
      rw [← List.filter_comm, ih]
    · rw [List.filter_cons_of_neg hb, firstDedup, List.filter_cons_of_neg hb]
      have hpl : List.filter p (List.filter (fun x => decide (x ≠ b)) l) =
          List.filter p l := by
        rw [List.filter_comm]
        refine List.filter_eq_self.mpr ?_
        intro x hx
        have hpx := List.of_mem_filter hx
        simp only [decide_eq_true_eq]
        rintro rfl
        rw [hpx] at hb
        exact hb rfl
      rw [← hpl, ih]

theorem length_firstDedup [DecidableEq α] (l : List α) :
    (firstDedup l).length = l.toFinset.card := by
  induction l using firstDedup.induct with
  | case1 => simp [firstDedup]
  | case2 b l ih =>
    rw [firstDedup, List.length_cons, ih, List.toFinset_cons]
    have hins : insert b l.toFinset = insert b (l.filter (fun x => decide (x ≠ b))).toFinset := by
      ext x
      simp only [Finset.mem_insert, List.mem_toFinset, List.mem_filter, decide_eq_true_eq]
      constructor
      · rintro (rfl | hx)
        · exact Or.inl rfl
        · by_cases hxb : x = b
          · exact Or.inl hxb
          · exact Or.inr ⟨hx, hxb⟩
      · rintro (rfl | ⟨hx, _⟩)
        · exact Or.inl rfl
        · exact Or.inr hx
    rw [hins, Finset.card_insert_of_not_mem (by simp)]

/-! ## Updates of alists in map-graph form

`per_invoice` entries are shown to stay in the shape
`ks.map (fun k => (k, g k))` with `ks` duplicate-free; these lemmas say what
`alistUpd` does to that shape. -/

theorem alistUpd_map_graph [DecidableEq κ] (ks : List κ) (g : κ → β) (k : κ)
    (dflt : β) (f : β → β) (hnd : ks.Nodup) (hk : k ∈ ks) :
    alistUpd (ks.map (fun x => (x, g x))) k dflt f =
      ks.map (fun x => (x, if x = k then f (g x) else g x)) := by
  induction ks with
  | nil => cases hk
  | cons a t ih =>
    rcases List.nodup_cons.mp hnd with ⟨hna, hnt⟩
    by_cases hak : a = k
    · subst hak
      rw [List.map_cons, alistUpd_cons_self, List.map_cons, if_pos rfl]
      congr 1
      refine (List.map_congr_left ?_).symm
      intro x hx
      rw [if_neg]
      rintro rfl
      exact hna hx
    · rw [List.map_cons, alistUpd_cons_ne _ _ _ _ _ _ hak, List.map_cons, if_neg hak,
        ih hnt ((List.mem_cons.mp hk).resolve_left (fun h => hak h.symm))]

theorem alistUpd_map_graph_not_mem [DecidableEq κ] (ks : List κ) (g : κ → β) (k : κ)
    (dflt : β) (f : β → β) (hk : k ∉ ks) :
    alistUpd (ks.map (fun x => (x, g x))) k dflt f =
      ks.map (fun x => (x, g x)) ++ [(k, f dflt)] := by
  induction ks with
  | nil => rfl
  | cons a t ih =>
    have hak : a ≠ k := fun h => hk (h ▸ List.mem_cons_self a t)
    rw [List.map_cons, alistUpd_cons_ne _ _ _ _ _ _ hak,
      ih (fun h => hk (List.mem_cons_of_mem a h))]
    rfl

/-! ## Characterization of the `per_invoice` grouping -/

theorem itemsForE_append (l₁ l₂ : List LineItem) (e : Cell) :
    itemsForE (l₁ ++ l₂) e = itemsForE l₁ e ++ itemsForE l₂ e := by
  simp [itemsForE, List.filter_append]

theorem foldl_addLine_char (items : List LineItem) :
    alistKeys (items.foldl addLine []) = firstDedup (items.map (·.emp))
    ∧ ∀ e, alistGetD (items.foldl addLine []) e [] = groupForE items e := by
  induction items using List.reverseRecOn with
  | nil =>
    refine ⟨by simp [alistKeys, firstDedup], fun e => ?_⟩
    simp [alistGetD, alistGet?, groupForE, itemsForE, firstDedup]
  | append_singleton items it ih =>
    obtain ⟨ihk, ihg⟩ := ih
    have hfold : (items ++ [it]).foldl addLine [] =
        addLine (items.foldl addLine []) it := by
      rw [List.foldl_append, List.foldl_cons, List.foldl_nil]
    set pi := items.foldl addLine [] with hpi
    have hmemKeys : (it.emp ∈ alistKeys pi) ↔ it.emp ∈ items.map (·.emp) := by
      rw [ihk, mem_firstDedup]
    constructor
    · rw [hfold, addLine, alistKeys_upd, List.map_append, List.map_cons, List.map_nil,
        firstDedup_append_singleton, ihk]
      simp [mem_firstDedup]
    · intro e
      rw [hfold, addLine]
      by_cases he : e = it.emp
      · subst he
        rw [alistGetD_upd_self, ihg it.emp]
        have hitem : itemsForE (items ++ [it]) it.emp =
            itemsForE items it.emp ++ [((it.date, it.inv), it.amt)] := by
          rw [itemsForE_append]
          simp [itemsForE]
        set K := (itemsForE items it.emp).map (·.1) with hK
        set g : (Date × Cell) → List ℚ :=
          fun k => ((itemsForE items it.emp).filter (fun p => decide (p.1 = k))).map (·.2)
          with hg
        have hgroup : groupForE items it.emp =
            (firstDedup K).map (fun k => (k, g k)) := rfl
        have hgroup' : groupForE (items ++ [it]) it.emp =
            (firstDedup (K ++ [(it.date, it.inv)])).map
              (fun k => (k, g k ++ if (it.date, it.inv) = k then [it.amt] else [])) := by
          rw [groupForE, hitem, List.map_append]
          simp only [List.map_cons, List.map_nil]
          congr 1
          funext k
          rw [List.filter_append, List.map_append]
          congr 2
          by_cases hk : (it.date, it.inv) = k
          · simp [hk]
          · simp [hk]
        rw [hgroup, hgroup']
        by_cases hmem : (it.date, it.inv) ∈ K
        · rw [firstDedup_append_singleton, if_pos hmem,
            alistUpd_map_graph _ _ _ _ _ (nodup_firstDedup K)
              ((mem_firstDedup K _).mpr hmem)]
          refine List.map_congr_left ?_
          intro k _
          by_cases hk : k = (it.date, it.inv)
          · rw [if_pos hk, if_pos hk.symm]
          · rw [if_neg hk, if_neg (fun h => hk h.symm), List.append_nil]
        · rw [firstDedup_append_singleton, if_neg hmem,
            alistUpd_map_graph_not_mem _ _ _ _ _
              (fun h => hmem ((mem_firstDedup K _).mp h)), List.map_append]
          congr 1
          · refine List.map_congr_left ?_
            intro k hkmem
            have hk : ¬((it.date, it.inv) = k) := by
              rintro rfl
              exact hmem ((mem_firstDedup K _).mp hkmem)
            rw [if_neg hk, List.append_nil]
          · have hfil : (itemsForE items it.emp).filter
                (fun p => decide (p.1 = (it.date, it.inv))) = [] := by
              refine List.filter_eq_nil_iff.mpr ?_
              intro p hp
              simp only [decide_eq_true_eq]
              intro hpk
              exact hmem (hpk ▸ List.mem_map_of_mem (·.1) hp)
            have hgnil : g (it.date, it.inv) = [] := by
              simp only [hg]
              rw [hfil, List.map_nil]
            simp [hgnil]
      · rw [alistGetD_upd_ne _ _ _ _ _ _ he, ihg e]
        have hne : ¬(it.emp = e) := fun h => he h.symm
        have : itemsForE (items ++ [it]) e = itemsForE items e := by
          rw [itemsForE_append]
          have h1 : itemsForE [it] e = [] := by
            simp [itemsForE, hne]
          rw [h1, List.append_nil]
        rw [groupForE, groupForE, this]

/-! ## Characterization of the summation pass -/

theorem sumPassInner_char (e : Cell) (inner : List ((Date × Cell) × List ℚ)) :
    ∀ (st : TransCount × DailyTotals) (e' : Cell) (d : Date),
      countOf (sumPassInner e inner st).1 e' d
        = countOf st.1 e' d +
            (if e' = e then (inner.filter (fun g => decide (g.1.1 = d))).length else 0)
      ∧ dailyOf (sumPassInner e inner st).2 e' d
        = dailyOf st.2 e' d ++
            (if e' = e then (inner.filter (fun g => decide (g.1.1 = d))).map (fun g => g.2.sum)
             else []) := by
  induction inner with
  | nil =>
    intro st e' d
    constructor
    · rw [sumPassInner, List.foldl_nil, List.filter_nil]
      split <;> simp
    · rw [sumPassInner, List.foldl_nil, List.filter_nil]
      split <;> simp
  | cons g rest ih =>
    intro st e' d
    rw [sumPassInner, List.foldl_cons, ← sumPassInner]
    set st' : TransCount × DailyTotals :=
      (alistUpd st.1 e [] (fun m => alistUpd m g.1.1 0 (· + 1)),
       alistUpd st.2 e [] (fun m => alistUpd m g.1.1 [] (· ++ [g.2.sum]))) with hst'
    obtain ⟨ihc, ihd⟩ := ih st' e' d
    by_cases he : e' = e
    · subst he
      have hc' : countOf st'.1 e' d =
          countOf st.1 e' d + (if g.1.1 = d then 1 else 0) := by
        rw [hst', countOf, countOf, alistGetD_upd_self]
        by_cases hd : g.1.1 = d
        · subst hd
          rw [alistGetD_upd_self]
          simp [alistGetD]
        · rw [alistGetD_upd_ne _ _ _ _ _ _ (fun h => hd h.symm)]
          simp [alistGetD, hd]
      have hd' : dailyOf st'.2 e' d =
          dailyOf st.2 e' d ++ (if g.1.1 = d then [g.2.sum] else []) := by
        rw [hst', dailyOf, dailyOf, alistGetD_upd_self]
        by_cases hd : g.1.1 = d
        · subst hd
          rw [alistGetD_upd_self]
          simp [alistGetD]
        · rw [alistGetD_upd_ne _ _ _ _ _ _ (fun h => hd h.symm)]
          simp [alistGetD, hd]
      constructor
      · rw [ihc, hc', if_pos rfl, if_pos rfl, List.filter_cons]
        by_cases hd : g.1.1 = d
        · subst hd
          simp
          omega
        · simp [hd]
      · rw [ihd, hd', if_pos rfl, if_pos rfl, List.filter_cons]
        by_cases hd : g.1.1 = d
        · subst hd
          simp
        · simp [hd]
    · have hc' : countOf st'.1 e' d = countOf st.1 e' d := by
        rw [hst', countOf, countOf, alistGetD_upd_ne _ _ _ _ _ _ he]
      have hd' : dailyOf st'.2 e' d = dailyOf st.2 e' d := by
        rw [hst', dailyOf, dailyOf, alistGetD_upd_ne _ _ _ _ _ _ he]
      rw [ihc, ihd, hc', hd', if_neg he, if_neg he, if_neg he, if_neg he]
      exact ⟨rfl, rfl⟩

theorem sumPass_fold_char (pi : PerInvoice) :
    ∀ (st : TransCount × DailyTotals) (e : Cell) (d : Date),
      (alistKeys pi).Nodup →
      countOf (pi.foldl (fun st x => sumPassInner x.1 x.2 st) st).1 e d
        = countOf st.1 e d +
            ((alistGetD pi e []).filter (fun g => decide (g.1.1 = d))).length
      ∧ dailyOf (pi.foldl (fun st x => sumPassInner x.1 x.2 st) st).2 e d
        = dailyOf st.2 e d ++
            ((alistGetD pi e []).filter (fun g => decide (g.1.1 = d))).map
              (fun g => g.2.sum) := by
  induction pi with
  | nil =>
    intro st e d _
    simp [alistGetD, alistGet?]
  | cons p rest ih =>
    obtain ⟨e₀, inner₀⟩ := p
    intro st e d hnd
    have hkeys : alistKeys ((e₀, inner₀) :: rest) = e₀ :: alistKeys rest := rfl
    rw [hkeys] at hnd
    rcases List.nodup_cons.mp hnd with ⟨hne₀, hndrest⟩
    rw [List.foldl_cons]
    obtain ⟨ihc, ihd⟩ := ih (sumPassInner e₀ inner₀ st) e d hndrest
    obtain ⟨hc, hd⟩ := sumPassInner_char e₀ inner₀ st e d
    by_cases he : e = e₀
    · subst he
      have hrest : alistGetD rest e [] = ([] : List ((Date × Cell) × List ℚ)) := by
        rw [alistGetD, alistGet?_eq_none_of_not_mem rest e hne₀]
        rfl
      refine ⟨?_, ?_⟩
      · rw [ihc, hc, hrest, if_pos rfl, alistGetD_cons, if_pos rfl]
        simp
      · rw [ihd, hd, hrest, if_pos rfl, alistGetD_cons, if_pos rfl]
        simp
    · refine ⟨?_, ?_⟩
      · rw [ihc, hc, if_neg he, alistGetD_cons, if_neg (fun h => he h.symm)]
        omega
      · rw [ihd, hd, if_neg he, alistGetD_cons, if_neg (fun h => he h.symm)]
        simp

theorem sumPass_char (pi : PerInvoice) (e : Cell) (d : Date)
    (hnd : (alistKeys pi).Nodup) :
    countOf (sumPass pi).1 e d
      = ((alistGetD pi e []).filter (fun g => decide (g.1.1 = d))).length
    ∧ dailyOf (sumPass pi).2 e d
      = ((alistGetD pi e []).filter (fun g => decide (g.1.1 = d))).map
          (fun g => g.2.sum) := by
  obtain ⟨hc, hd⟩ := sumPass_fold_char pi ([], []) e d hnd
  rw [sumPass]
  constructor
  · rw [hc]
    simp [countOf, alistGetD, alistGet?]
  · rw [hd]
    simp [dailyOf, alistGetD, alistGet?]

/-! ## From the row loop to the accepted line items -/

theorem aggRows_ok_foldl (cm : ColMap) :
    ∀ (rows : List (List Cell)) (acc pi : PerInvoice),
      rows.foldlM (aggStep cm) acc = .ok pi →
      pi = (acceptedItems cm rows).foldl addLine acc := by
  intro rows
  induction rows with
  | nil =>
    intro acc pi h
    simp only [List.foldlM_nil, pure, Except.pure] at h
    cases h
    rfl
  | cons row rest ih =>
    intro acc pi h
    rw [List.foldlM_cons] at h
    rcases hext : extractRow cm row with _ | o
    · rw [aggStep, hext] at h
      cases h
    · rcases o with _ | it
      · rw [aggStep, hext] at h
        have h' : rest.foldlM (aggStep cm) acc = .ok pi := h
        rw [acceptedItems, List.filterMap_cons, hext]
        exact ih acc pi h'
      · rw [aggStep, hext] at h
        have h' : rest.foldlM (aggStep cm) (addLine acc it) = .ok pi := h
        rw [acceptedItems, List.filterMap_cons, hext, List.foldl_cons]
        exact ih (addLine acc it) pi h'

/-! ## From the grouped shape to the spec's invoice vocabulary -/

theorem map_snd_filter_ne [DecidableEq α] [DecidableEq β] (a : α) (x : α × β)
    (hx : x.1 = a) :
    ∀ (l : List (α × β)), (∀ y ∈ l, y.1 = a) →
      (l.filter (fun y => decide (y ≠ x))).map (·.2)
        = (l.map (·.2)).filter (fun b => decide (b ≠ x.2)) := by
  intro l
  induction l with
  | nil => intro _; rfl
  | cons z t iht =>
    intro h
    have hz : z.1 = a := h z (List.mem_cons_self z t)
    have hrest := iht (fun y hy => h y (List.mem_cons_of_mem z hy))
    have hiff : (z ≠ x) ↔ (z.2 ≠ x.2) := by
      constructor
      · intro hzx hz2
        exact hzx (Prod.ext (hz.trans hx.symm) hz2)
      · intro hz2 hzx
        exact hz2 (congrArg Prod.snd hzx)
    rw [List.map_cons, List.filter_cons, List.filter_cons]
    by_cases hzx : z ≠ x
    · rw [if_pos (by simpa using hzx), if_pos (by simpa using hiff.mp hzx),
        List.map_cons, hrest]
    · push_neg at hzx
      rw [if_neg (by simpa using hzx), if_neg (by simp [hzx]), hrest]

theorem firstDedup_pairs_const_fst [DecidableEq α] [DecidableEq β]
    (l : List (α × β)) (a : α) (h : ∀ x ∈ l, x.1 = a) :
    firstDedup l = (firstDedup (l.map (·.2))).map (fun b => (a, b)) := by
  induction l using firstDedup.induct with
  | case1 => simp [firstDedup]
  | case2 x l ih =>
    have hx : x.1 = a := h x (List.mem_cons_self x l)
    rw [firstDedup, List.map_cons, firstDedup, List.map_cons]
    rw [ih (fun y hy => h y (List.mem_cons_of_mem x (List.mem_of_mem_filter hy))),
      map_snd_filter_ne a x hx l (fun y hy => h y (List.mem_cons_of_mem x hy)), ← hx]

theorem itemsForE_eq_map_filter (items : List LineItem) (e : Cell) (d : Date) :
    (itemsForE items e).filter (fun p => decide (p.1.1 = d))
      = (items.filter (fun it => decide (it.emp = e ∧ it.date = d))).map
          (fun it => ((it.date, it.inv), it.amt)) := by
  rw [itemsForE, List.filter_map, List.filter_filter]
  congr 1
  refine List.filter_congr ?_
  intro it _
  show (decide (it.date = d) && decide (it.emp = e)) = decide (it.emp = e ∧ it.date = d)
  simp only [← Bool.decide_and, decide_eq_decide]
  tauto

theorem filter_key_eq (items : List LineItem) (e : Cell) (d : Date) (inv : Cell) :
    ((itemsForE items e).filter (fun p => decide (p.1 = ((d, inv) : Date × Cell)))).map (·.2)
      = amountsFor items e d inv := by
  rw [itemsForE, List.filter_map, List.map_map, amountsFor]
  have hfil : ((items.filter (fun it => decide (it.emp = e))).filter
      ((fun p => decide (p.1 = ((d, inv) : Date × Cell))) ∘
        (fun it => ((it.date, it.inv), it.amt))))
      = items.filter (fun it => decide (it.emp = e ∧ it.date = d ∧ it.inv = inv)) := by
    rw [List.filter_filter]
    refine List.filter_congr ?_
    intro it _
    show (decide ((it.date, it.inv) = (d, inv)) && decide (it.emp = e))
      = decide (it.emp = e ∧ it.date = d ∧ it.inv = inv)
    simp only [← Bool.decide_and, decide_eq_decide, Prod.mk.injEq]
    tauto
  rw [hfil]
  rfl

theorem groupForE_filter_date (items : List LineItem) (e : Cell) (d : Date) :
    ((groupForE items e).filter (fun p => decide (p.1.1 = d))).map (fun p => p.2.sum)
      = (distinctInvoices items e d).map (fun inv => (amountsFor items e d inv).sum) := by
  rw [groupForE, List.filter_map, List.map_map]
  show ((firstDedup ((itemsForE items e).map (·.1))).filter
      (fun k => decide (k.1 = d))).map
      (fun k => (((itemsForE items e).filter (fun p => decide (p.1 = k))).map (·.2)).sum)
    = _
  rw [← firstDedup_filter]
  have hKfil : ((itemsForE items e).map (·.1)).filter (fun k => decide (k.1 = d))
      = (items.filter (fun it => decide (it.emp = e ∧ it.date = d))).map
          (fun it => (it.date, it.inv)) := by
    rw [List.filter_map]
    show ((itemsForE items e).filter (fun p => decide (p.1.1 = d))).map (·.1) = _
    rw [itemsForE_eq_map_filter, List.map_map]
    rfl
  rw [hKfil]
  have hconst : ∀ x ∈ (items.filter (fun it => decide (it.emp = e ∧ it.date = d))).map
      (fun it => ((it.date, it.inv) : Date × Cell)), x.1 = d := by
    intro x hx
    rcases List.mem_map.mp hx with ⟨it, hit, rfl⟩
    have hmem := List.of_mem_filter hit
    simp only [decide_eq_true_eq] at hmem
    exact hmem.2
  rw [firstDedup_pairs_const_fst _ d hconst, List.map_map, List.map_map]
  have hsnd : ((items.filter (fun it => decide (it.emp = e ∧ it.date = d))).map
      ((fun x => x.2) ∘ (fun it => ((it.date, it.inv) : Date × Cell))))
      = invoicesSeen items e d := by
    rw [invoicesSeen]
    rfl
  rw [hsnd, distinctInvoices]
  refine List.map_congr_left ?_
  intro inv _
  show (((itemsForE items e).filter
      (fun p => decide (p.1 = ((d, inv) : Date × Cell)))).map (·.2)).sum
    = (amountsFor items e d inv).sum
  rw [filter_key_eq]

/-! ## Bonus-engine bookkeeping lemmas -/

theorem cat400_ne_cat700 : catOver400 ≠ catOver700 := by decide

theorem cat400_ne_catAvg : catOver400 ≠ catAvg := by decide

theorem cat700_ne_catAvg : catOver700 ≠ catAvg := by decide

theorem totalOf_addBonus_self (st : BonusState) (e : Cell) (c : String) (amt : ℚ) :
    totalOf (addBonus st e c amt) e = totalOf st e + amt := by
  rw [totalOf, totalOf, addBonus]
  exact alistGetD_upd_self st.bonuses e 0 0 (· + amt)

theorem totalOf_addBonus_ne (st : BonusState) (e e' : Cell) (c : String) (amt : ℚ)
    (h : e' ≠ e) : totalOf (addBonus st e c amt) e' = totalOf st e' := by
  rw [totalOf, totalOf, addBonus]
  exact alistGetD_upd_ne st.bonuses e e' 0 0 (· + amt) h

theorem detailOf_addBonus_self (st : BonusState) (e : Cell) (c : String) (amt : ℚ) :
    detailOf (addBonus st e c amt) e c = detailOf st e c + amt := by
  rw [detailOf, detailOf, addBonus]
  show alistGetD (alistGetD (alistUpd st.details e []
    (fun inner => alistUpd inner c 0 (· + amt))) e []) c 0 = _
  rw [alistGetD_upd_self, alistGetD_upd_self]

theorem detailOf_addBonus_ne_cat (st : BonusState) (e : Cell) (c c' : String)
    (amt : ℚ) (h : c' ≠ c) : detailOf (addBonus st e c amt) e c' = detailOf st e c' := by
  rw [detailOf, detailOf, addBonus]
  show alistGetD (alistGetD (alistUpd st.details e []
    (fun inner => alistUpd inner c 0 (· + amt))) e []) c' 0 = _
  rw [alistGetD_upd_self, alistGetD_upd_ne _ _ _ _ _ _ h]

theorem detailOf_addBonus_ne_emp (st : BonusState) (e e' : Cell) (c c' : String)
    (amt : ℚ) (h : e' ≠ e) : detailOf (addBonus st e c amt) e' c' = detailOf st e' c' := by
  rw [detailOf, detailOf, addBonus]
  show alistGetD (alistGetD (alistUpd st.details e []
    (fun inner => alistUpd inner c 0 (· + amt))) e' []) c' 0 = _
  rw [alistGetD_upd_ne _ _ _ _ _ _ h]

theorem nOver_cons (t x : ℚ) (l : List ℚ) :
    nOver t (x :: l) = (if x > t then 1 else 0) + nOver t l := by
  rw [nOver, nOver, List.filter_cons]
  by_cases h : x > t
  · rw [if_pos (by simpa using h), if_pos h, List.length_cons]
    omega
  · rw [if_neg (by simpa using h), if_neg h]
    omega

theorem threshFold_char (e : Cell) (totals : List ℚ) :
    ∀ (st : BonusState),
      totalOf (totals.foldl (threshStep e) st) e
        = totalOf st e + BONUS_OVER_400 * (nOver 400 totals : ℚ)
            + BONUS_OVER_700 * (nOver 700 totals : ℚ)
      ∧ detailOf (totals.foldl (threshStep e) st) e catOver400
        = detailOf st e catOver400 + BONUS_OVER_400 * (nOver 400 totals : ℚ)
      ∧ detailOf (totals.foldl (threshStep e) st) e catOver700
        = detailOf st e catOver700 + BONUS_OVER_700 * (nOver 700 totals : ℚ)
      ∧ detailOf (totals.foldl (threshStep e) st) e catAvg
        = detailOf st e catAvg := by
  induction totals with
  | nil =>
    intro st
    rw [List.foldl_nil]
    refine ⟨by simp [nOver], by simp [nOver], by simp [nOver], rfl⟩
  | cons x l ih =>
    intro st
    rw [List.foldl_cons]
    obtain ⟨ih1, ih2, ih3, ih4⟩ := ih (threshStep e st x)
    have h1 : totalOf (threshStep e st x) e
        = totalOf st e + (if x > 400 then BONUS_OVER_400 else 0)
            + (if x > 700 then BONUS_OVER_700 else 0) := by
      rw [threshStep]
      by_cases h4 : x > 400 <;> by_cases h7 : x > 700 <;>
        simp only [h4, h7, if_pos, if_neg, if_true, if_false, ite_true, ite_false,
          totalOf_addBonus_self] <;> ring
    have h2 : detailOf (threshStep e st x) e catOver400
        = detailOf st e catOver400 + (if x > 400 then BONUS_OVER_400 else 0) := by
      rw [threshStep]
      by_cases h4 : x > 400 <;> by_cases h7 : x > 700 <;>
        simp only [h4, h7, ite_true, ite_false, detailOf_addBonus_self,
          detailOf_addBonus_ne_cat _ _ _ _ _ cat400_ne_cat700] <;> ring
    have h3 : detailOf (threshStep e st x) e catOver700
        = detailOf st e catOver700 + (if x > 700 then BONUS_OVER_700 else 0) := by
      rw [threshStep]
      by_cases h4 : x > 400 <;> by_cases h7 : x > 700 <;>
        simp only [h4, h7, ite_true, ite_false, detailOf_addBonus_self,
          detailOf_addBonus_ne_cat _ _ _ _ _ (Ne.symm cat400_ne_cat700)] <;> ring
    have h4' : detailOf (threshStep e st x) e catAvg = detailOf st e catAvg := by
      rw [threshStep]
      by_cases h4 : x > 400 <;> by_cases h7 : x > 700 <;>
        simp only [h4, h7, ite_true, ite_false,
          detailOf_addBonus_ne_cat _ _ _ _ _ (Ne.symm cat400_ne_catAvg),
          detailOf_addBonus_ne_cat _ _ _ _ _ (Ne.symm cat700_ne_catAvg)]
    refine ⟨?_, ?_, ?_, ?_⟩
    · rw [ih1, h1, nOver_cons, nOver_cons]
      by_cases hx4 : x > 400 <;> by_cases hx7 : x > 700 <;>
        simp only [hx4, hx7, ite_true, ite_false] <;> push_cast <;> ring
    · rw [ih2, h2, nOver_cons]
      by_cases hx4 : x > 400 <;> simp only [hx4, ite_true, ite_false] <;>
        push_cast <;> ring
    · rw [ih3, h3, nOver_cons]
      by_cases hx7 : x > 700 <;> simp only [hx7, ite_true, ite_false] <;>
        push_cast <;> ring
    · rw [ih4, h4']

theorem bonusStep_char (tc : TransCount) (st : BonusState) (e : Cell) (d : Date)
    (totals : List ℚ) :
    totalOf (bonusStep tc st e d totals) e
      = totalOf st e + BONUS_OVER_400 * (nOver 400 totals : ℚ)
          + BONUS_OVER_700 * (nOver 700 totals : ℚ)
          + avgTier (if countOf tc e d ≠ 0 then totals.sum / (countOf tc e d : ℚ) else 0)
    ∧ detailOf (bonusStep tc st e d totals) e catOver400
      = detailOf st e catOver400 + BONUS_OVER_400 * (nOver 400 totals : ℚ)
    ∧ detailOf (bonusStep tc st e d totals) e catOver700
      = detailOf st e catOver700 + BONUS_OVER_700 * (nOver 700 totals : ℚ)
    ∧ detailOf (bonusStep tc st e d totals) e catAvg
      = detailOf st e catAvg
          + avgTier (if countOf tc e d ≠ 0 then totals.sum / (countOf tc e d : ℚ) else 0) := by
  obtain ⟨h1, h2, h3, h4⟩ := threshFold_char e totals st
  rw [bonusStep, avgTier]
  set avg : ℚ := if countOf tc e d ≠ 0 then totals.sum / (countOf tc e d : ℚ) else 0
    with havg
  by_cases c150 : avg > 150
  · simp only [c150, ite_true]
    refine ⟨?_, ?_, ?_, ?_⟩
    · rw [totalOf_addBonus_self, h1]
    · rw [detailOf_addBonus_ne_cat _ _ _ _ _ cat400_ne_catAvg, h2]
    · rw [detailOf_addBonus_ne_cat _ _ _ _ _ cat700_ne_catAvg, h3]
    · rw [detailOf_addBonus_self, h4]
  · by_cases c140 : avg > 140
    · simp only [c150, c140, ite_true, ite_false]
      refine ⟨?_, ?_, ?_, ?_⟩
      · rw [totalOf_addBonus_self, h1]
      · rw [detailOf_addBonus_ne_cat _ _ _ _ _ cat400_ne_catAvg, h2]
      · rw [detailOf_addBonus_ne_cat _ _ _ _ _ cat700_ne_catAvg, h3]
      · rw [detailOf_addBonus_self, h4]
    · by_cases c130 : avg > 130
      · simp only [c150, c140, c130, ite_true, ite_false]
        refine ⟨?_, ?_, ?_, ?_⟩
        · rw [totalOf_addBonus_self, h1]
        · rw [detailOf_addBonus_ne_cat _ _ _ _ _ cat400_ne_catAvg, h2]
        · rw [detailOf_addBonus_ne_cat _ _ _ _ _ cat700_ne_catAvg, h3]
        · rw [detailOf_addBonus_self, h4]
      · simp only [c150, c140, c130, ite_false]
        refine ⟨?_, ?_, ?_, ?_⟩
        · rw [h1]
          ring
        · rw [h2]
        · rw [h3]
        · rw [h4]
          ring

theorem engine_single (e : Cell) (d : Date) (totals : List ℚ) (tc : TransCount) :
    calculate_transaction_bonuses [(e, [(d, totals)])] tc
      = bonusStep tc ⟨[], []⟩ e d totals := by
  rw [calculate_transaction_bonuses, List.foldl_cons, List.foldl_nil, empStep,
    List.foldl_cons, List.foldl_nil, dayStep]

/-! ## The books-balance invariant of the engine -/

theorem sumValues_upd (inner : List (String × ℚ)) (c : String) (amt : ℚ) :
    sumValues (alistUpd inner c 0 (· + amt)) = sumValues inner + amt := by
  induction inner with
  | nil =>
    rw [alistUpd_nil]
    simp [sumValues]
  | cons p rest ih =>
    obtain ⟨c₀, v⟩ := p
    by_cases h : c₀ = c
    · subst h
      rw [alistUpd_cons_self]
      simp only [sumValues, List.map_cons, List.sum_cons]
      ring
    · rw [alistUpd_cons_ne _ _ _ _ _ _ h]
      simp only [sumValues, List.map_cons, List.sum_cons] at ih ⊢
      rw [ih]
      ring

theorem InvB_addBonus (st : BonusState) (e : Cell) (c : String) (amt : ℚ)
    (h : InvB st) : InvB (addBonus st e c amt) := by
  intro e'
  by_cases he : e' = e
  · subst he
    rw [totalOf_addBonus_self, h e']
    show _ = sumValues (alistGetD (alistUpd st.details e' []
      (fun inner => alistUpd inner c 0 (· + amt))) e' [])
    rw [alistGetD_upd_self, sumValues_upd]
  · rw [totalOf_addBonus_ne _ _ _ _ _ he, h e']
    show _ = sumValues (alistGetD (alistUpd st.details e []
      (fun inner => alistUpd inner c 0 (· + amt))) e' [])
    rw [alistGetD_upd_ne _ _ _ _ _ _ he]

theorem foldl_preserves {α : Type} (P : BonusState → Prop)
    (f : BonusState → α → BonusState) (hf : ∀ st x, P st → P (f st x)) :
    ∀ (l : List α) (st : BonusState), P st → P (l.foldl f st) := by
  intro l
  induction l with
  | nil => intro st h; exact h
  | cons x t ih =>
    intro st h
    rw [List.foldl_cons]
    exact ih (f st x) (hf st x h)

theorem InvB_threshStep (e : Cell) (st : BonusState) (x : ℚ) (h : InvB st) :
    InvB (threshStep e st x) := by
  rw [threshStep]
  by_cases h4 : x > 400 <;> by_cases h7 : x > 700 <;>
    simp only [h4, h7, ite_true, ite_false] <;>
    first
      | exact InvB_addBonus _ _ _ _ (InvB_addBonus _ _ _ _ h)
      | exact InvB_addBonus _ _ _ _ h
      | exact h

theorem InvB_bonusStep (tc : TransCount) (st : BonusState) (e : Cell) (d : Date)
    (totals : List ℚ) (h : InvB st) : InvB (bonusStep tc st e d totals) := by
  have hfold : InvB (totals.foldl (threshStep e) st) :=
    foldl_preserves InvB (threshStep e) (fun st x => InvB_threshStep e st x) totals st h
  have htier : ∀ (a : ℚ) (st' : BonusState), InvB st' →
      InvB (if a > 150 then addBonus st' e catAvg BONUS_AVG_150
        else if a > 140 then addBonus st' e catAvg BONUS_AVG_140
        else if a > 130 then addBonus st' e catAvg BONUS_AVG_130
        else st') := by
    intro a st' h'
    split
    · exact InvB_addBonus _ _ _ _ h'
    · split
      · exact InvB_addBonus _ _ _ _ h'
      · split
        · exact InvB_addBonus _ _ _ _ h'
        · exact h'
  rw [bonusStep]
  exact htier _ _ hfold

theorem InvB_init : InvB ⟨[], []⟩ := fun _ => rfl

theorem InvB_engine (sales : DailyTotals) (tc : TransCount) :
    InvB (calculate_transaction_bonuses sales tc) := by
  rw [calculate_transaction_bonuses]
  have hday : ∀ (x : Cell × List (Date × List ℚ)) (st : BonusState)
      (p : Date × List ℚ), InvB st → InvB (dayStep tc x.1 st p) := by
    intro x st p h
    rw [dayStep]
    exact InvB_bonusStep tc st x.1 p.1 p.2 h
  have hemp : ∀ (st : BonusState) (x : Cell × List (Date × List ℚ)), InvB st →
      InvB (empStep tc st x) := by
    intro st x hst
    rw [empStep]
    exact foldl_preserves InvB (dayStep tc x.1) (hday x) x.2 st hst
  exact foldl_preserves InvB (empStep tc) hemp sales ⟨[], []⟩ InvB_init

/-! ## Claim theorems -/

/-- C10: for every input to the bonus engine and every employee, the
employee's total bonus equals the sum of that employee's category-breakdown
amounts — every bonus added to a total is simultaneously added to exactly one
category.  The single definition `calculate_transaction_bonuses` embeds the
engine of both source files, whose bodies are character-for-character
identical. -/
theorem engine_total_eq_breakdown_sum (sales : DailyTotals) (tc : TransCount)
    (e : Cell) :
    totalOf (calculate_transaction_bonuses sales tc) e
      = sumValues (alistGetD (calculate_transaction_bonuses sales tc).details e []) :=
  InvB_engine sales tc e

/-- C2: for every run of the aggregator that completes, and every
employee/day, the recorded transaction totals are exactly one total per
distinct invoice identifier seen for that employee/day (in first-seen order),
each equal to the sum of that invoice's line amounts Σ uᵢ·qᵢ; the transaction
count equals the number of recorded totals, which equals the number of
distinct invoice identifiers seen. -/
theorem invoice_grouping (cm : ColMap) (rows : List (List Cell)) (pi : PerInvoice)
    (h : aggRows cm rows = .ok pi) (e : Cell) (d : Date) :
    dailyOf (sumPass pi).2 e d
      = (distinctInvoices (acceptedItems cm rows) e d).map
          (fun inv => (amountsFor (acceptedItems cm rows) e d inv).sum)
    ∧ countOf (sumPass pi).1 e d = (dailyOf (sumPass pi).2 e d).length
    ∧ (dailyOf (sumPass pi).2 e d).length
        = (invoicesSeen (acceptedItems cm rows) e d).toFinset.card := by
  have hpi : pi = (acceptedItems cm rows).foldl addLine [] :=
    aggRows_ok_foldl cm rows [] pi h
  set items := acceptedItems cm rows with hitems
  obtain ⟨hkeys, hget⟩ := foldl_addLine_char items
  have hnd : (alistKeys pi).Nodup := by
    rw [hpi, hkeys]
    exact nodup_firstDedup _
  obtain ⟨hc, hd⟩ := sumPass_char pi e d hnd
  have hgetpi : alistGetD pi e [] = groupForE items e := by
    rw [hpi]
    exact hget e
  have hdaily : dailyOf (sumPass pi).2 e d
      = (distinctInvoices items e d).map (fun inv => (amountsFor items e d inv).sum) := by
    rw [hd, hgetpi]
    exact groupForE_filter_date items e d
  refine ⟨hdaily, ?_, ?_⟩
  · rw [hc, hd, List.length_map]
  · rw [hdaily, List.length_map, distinctInvoices, length_firstDedup]

theorem engine_single_char (e : Cell) (d : Date) (totals : List ℚ) (tc : TransCount) :
    totalOf (calculate_transaction_bonuses [(e, [(d, totals)])] tc) e
      = BONUS_OVER_400 * (nOver 400 totals : ℚ)
          + BONUS_OVER_700 * (nOver 700 totals : ℚ)
          + avgTier (if countOf tc e d ≠ 0 then totals.sum / (countOf tc e d : ℚ) else 0)
    ∧ detailOf (calculate_transaction_bonuses [(e, [(d, totals)])] tc) e catOver400
      = BONUS_OVER_400 * (nOver 400 totals : ℚ)
    ∧ detailOf (calculate_transaction_bonuses [(e, [(d, totals)])] tc) e catOver700
      = BONUS_OVER_700 * (nOver 700 totals : ℚ)
    ∧ detailOf (calculate_transaction_bonuses [(e, [(d, totals)])] tc) e catAvg
      = avgTier (if countOf tc e d ≠ 0 then totals.sum / (countOf tc e d : ℚ) else 0) := by
  obtain ⟨h1, h2, h3, h4⟩ := bonusStep_char tc ⟨[], []⟩ e d totals
  rw [engine_single]
  refine ⟨?_, ?_, ?_, ?_⟩
  · rw [h1]
    show (0 : ℚ) + _ + _ + _ = _
    ring
  · rw [h2]
    show (0 : ℚ) + _ = _
    ring
  · rw [h3]
    show (0 : ℚ) + _ = _
    ring
  · rw [h4]
    show (0 : ℚ) + _ = _
    ring

theorem countOf_tcOne : countOf tcOne empA dEx = 1 := rfl

theorem except_bind_ok (a : α) (f : α → Except ε β) :
    (Except.ok a >>= f) = f a := rfl

/-- Unfolds `analyze_workbook` once the header search and the row loop are
known to succeed. -/
theorem analyze_workbook_staged (sheet : List (List Cell)) (hr : ℕ)
    (colIdx : List (String × ℕ)) (pi : PerInvoice)
    (h1 : find_header_row sheet REQUIRED_COLS = .ok (hr, colIdx))
    (h2 : aggRows (mkColMap colIdx) (sheet.drop hr) = .ok pi) :
    analyze_workbook sheet = .ok
      ⟨(calculate_transaction_bonuses (sumPass pi).2 (sumPass pi).1).bonuses,
       (calculate_transaction_bonuses (sumPass pi).2 (sumPass pi).1).details,
       (sumPass pi).2, (sumPass pi).1⟩ := by
  rw [analyze_workbook, h1]
  simp only [except_bind_ok]
  rw [h2]
  simp only [except_bind_ok]
  rfl

theorem piC1raw_eq : piC1raw = piC1 := by
  rw [piC1raw, piC1]
  norm_num

theorem sumPass_piC1_count : (sumPass piC1).1 = [(empA, [(dEx, 2)])] := rfl

theorem sumPass_piC1_daily : (sumPass piC1).2 = [(empA, [(dEx, [250, 800])])] := by
  have h : (sumPass piC1).2
      = [(empA, [(dEx, [List.sum [(200 : ℚ), 50], List.sum [(800 : ℚ)]])])] := rfl
  rw [h]
  norm_num

/-- C1: the end-to-end example — on the sheet with one employee "A", one day,
invoice 1 = (unit 100, qty 2) + (unit 50, qty 1) and invoice 2 =
(unit 800, qty 1), the pipeline succeeds, the aggregator records transaction
count 2 with totals [250, 800] for A's day, and the bonus engine pays A a
total of 65: average-tier 35 (average 525), over-400 20 and over-700 10 (both
from the 800 transaction). -/
theorem end_to_end_example :
    analyze_workbook sheetC1 = .ok
      ⟨(calculate_transaction_bonuses (sumPass piC1).2 (sumPass piC1).1).bonuses,
       (calculate_transaction_bonuses (sumPass piC1).2 (sumPass piC1).1).details,
       (sumPass piC1).2, (sumPass piC1).1⟩
    ∧ countOf (sumPass piC1).1 empA dEx = 2
    ∧ dailyOf (sumPass piC1).2 empA dEx = [250, 800]
    ∧ totalOf (calculate_transaction_bonuses (sumPass piC1).2 (sumPass piC1).1) empA = 65
    ∧ detailOf (calculate_transaction_bonuses (sumPass piC1).2 (sumPass piC1).1)
        empA catAvg = 35
    ∧ detailOf (calculate_transaction_bonuses (sumPass piC1).2 (sumPass piC1).1)
        empA catOver400 = 20
    ∧ detailOf (calculate_transaction_bonuses (sumPass piC1).2 (sumPass piC1).1)
        empA catOver700 = 10 := by
  have htc := sumPass_piC1_count
  have hdt := sumPass_piC1_daily
  have hcnt : countOf [(empA, [(dEx, 2)])] empA dEx = 2 := rfl
  refine ⟨?_, rfl, ?_, ?_, ?_, ?_, ?_⟩
  · exact analyze_workbook_staged sheetC1 1 colIdxC1 piC1 rfl (by rw [← piC1raw_eq]; rfl)
  · rw [dailyOf, hdt]
    rfl
  · rw [hdt, htc, (engine_single_char empA dEx [250, 800] [(empA, [(dEx, 2)])]).1,
      hcnt, show nOver 400 [250, 800] = 1 from rfl, show nOver 700 [250, 800] = 1 from rfl,
      BONUS_OVER_400, BONUS_OVER_700]
    norm_num [avgTier, List.sum_cons, List.sum_nil, BONUS_AVG_150]
  · rw [hdt, htc, (engine_single_char empA dEx [250, 800] [(empA, [(dEx, 2)])]).2.2.2,
      hcnt]
    norm_num [avgTier, List.sum_cons, List.sum_nil, BONUS_AVG_150]
  · rw [hdt, htc, (engine_single_char empA dEx [250, 800] [(empA, [(dEx, 2)])]).2.1,
      show nOver 400 [250, 800] = 1 from rfl, BONUS_OVER_400]
    norm_num
  · rw [hdt, htc, (engine_single_char empA dEx [250, 800] [(empA, [(dEx, 2)])]).2.2.1,
      show nOver 700 [250, 800] = 1 from rfl, BONUS_OVER_700]
    norm_num

/-- C6: per-transaction thresholds are evaluated independently and
non-exclusively for every individual transaction total — for a single-day
input the over-400 category accumulates 20 per total above 400 and the
over-700 category 10 per total above 700 — and concretely a 750 transaction
contributes both amounts (20 to over-400, 10 to over-700, both inside the
total 65) while a 500 transaction contributes only the over-400 amount. -/
theorem threshold_stacking :
    (∀ (e : Cell) (d : Date) (totals : List ℚ) (tc : TransCount),
      detailOf (calculate_transaction_bonuses [(e, [(d, totals)])] tc) e catOver400
          = BONUS_OVER_400 * (nOver 400 totals : ℚ)
        ∧ detailOf (calculate_transaction_bonuses [(e, [(d, totals)])] tc) e catOver700
          = BONUS_OVER_700 * (nOver 700 totals : ℚ))
    ∧ detailOf (calculate_transaction_bonuses [(empA, [(dEx, [750])])] tcOne)
        empA catOver400 = 20
    ∧ detailOf (calculate_transaction_bonuses [(empA, [(dEx, [750])])] tcOne)
        empA catOver700 = 10
    ∧ totalOf (calculate_transaction_bonuses [(empA, [(dEx, [750])])] tcOne) empA = 65
    ∧ detailOf (calculate_transaction_bonuses [(empA, [(dEx, [500])])] tcOne)
        empA catOver400 = 20
    ∧ detailOf (calculate_transaction_bonuses [(empA, [(dEx, [500])])] tcOne)
        empA catOver700 = 0
    ∧ totalOf (calculate_transaction_bonuses [(empA, [(dEx, [500])])] tcOne) empA = 55 := by
  refine ⟨fun e d totals tc => ⟨(engine_single_char e d totals tc).2.1,
    (engine_single_char e d totals tc).2.2.1⟩, ?_, ?_, ?_, ?_, ?_, ?_⟩
  · rw [(engine_single_char empA dEx [750] tcOne).2.1]
    rw [show nOver 400 [750] = 1 from rfl, BONUS_OVER_400]
    norm_num
  · rw [(engine_single_char empA dEx [750] tcOne).2.2.1]
    rw [show nOver 700 [750] = 1 from rfl, BONUS_OVER_700]
    norm_num
  · rw [(engine_single_char empA dEx [750] tcOne).1]
    rw [show nOver 400 [750] = 1 from rfl, show nOver 700 [750] = 1 from rfl,
      countOf_tcOne, BONUS_OVER_400, BONUS_OVER_700]
    norm_num [avgTier, List.sum_cons, List.sum_nil, BONUS_AVG_150]
  · rw [(engine_single_char empA dEx [500] tcOne).2.1]
    rw [show nOver 400 [500] = 1 from rfl, BONUS_OVER_400]
    norm_num
  · rw [(engine_single_char empA dEx [500] tcOne).2.2.1]
    rw [show nOver 700 [500] = 0 from rfl, BONUS_OVER_700]
    norm_num
  · rw [(engine_single_char empA dEx [500] tcOne).1]
    rw [show nOver 400 [500] = 1 from rfl, show nOver 700 [500] = 0 from rfl,
      countOf_tcOne, BONUS_OVER_400, BONUS_OVER_700]
    norm_num [avgTier, List.sum_cons, List.sum_nil, BONUS_AVG_150]

/-- C7: for every employee/day at most one average-tier bonus is awarded —
the average category of a single-day input carries exactly `avgTier` of the
day's average (strict thresholds, highest tier wins) — an average of 130 or
below awards nothing, and concretely average 141 awards only 25, average
150.01 awards only 35, average exactly 150 awards only 25. -/
theorem average_tier_exclusive :
    (∀ (e : Cell) (d : Date) (totals : List ℚ) (tc : TransCount),
      detailOf (calculate_transaction_bonuses [(e, [(d, totals)])] tc) e catAvg
        = avgTier (if countOf tc e d ≠ 0 then totals.sum / (countOf tc e d : ℚ) else 0))
    ∧ (∀ a : ℚ, a ≤ 130 → avgTier a = 0)
    ∧ detailOf (calculate_transaction_bonuses [(empA, [(dEx, [141])])] tcOne)
        empA catAvg = 25
    ∧ detailOf (calculate_transaction_bonuses [(empA, [(dEx, [150.01])])] tcOne)
        empA catAvg = 35
    ∧ detailOf (calculate_transaction_bonuses [(empA, [(dEx, [150])])] tcOne)
        empA catAvg = 25
    ∧ detailOf (calculate_transaction_bonuses [(empA, [(dEx, [130])])] tcOne)
        empA catAvg = 0 := by
  refine ⟨fun e d totals tc => (engine_single_char e d totals tc).2.2.2, ?_, ?_, ?_, ?_, ?_⟩
  · intro a ha
    rw [avgTier, if_neg (by linarith), if_neg (by linarith), if_neg (by linarith)]
  · rw [(engine_single_char empA dEx [141] tcOne).2.2.2, countOf_tcOne]
    norm_num [avgTier, List.sum_cons, List.sum_nil, BONUS_AVG_140]
  · rw [(engine_single_char empA dEx [150.01] tcOne).2.2.2, countOf_tcOne]
    norm_num [avgTier, List.sum_cons, List.sum_nil, BONUS_AVG_150]
  · rw [(engine_single_char empA dEx [150] tcOne).2.2.2, countOf_tcOne]
    norm_num [avgTier, List.sum_cons, List.sum_nil, BONUS_AVG_140]
  · rw [(engine_single_char empA dEx [130] tcOne).2.2.2, countOf_tcOne]
    norm_num [avgTier, List.sum_cons, List.sum_nil]

/-- C8: for an employee/day whose transaction count is 0, the engine's
average is the guarded 0 (no division is attempted), no average-tier bonus is
awarded, and the employee's total consists of the per-transaction threshold
bonuses alone. -/
theorem zero_count_safe (e : Cell) (d : Date) (totals : List ℚ) (tc : TransCount)
    (h : countOf tc e d = 0) :
    (if countOf tc e d ≠ 0 then totals.sum / (countOf tc e d : ℚ) else 0) = 0
    ∧ detailOf (calculate_transaction_bonuses [(e, [(d, totals)])] tc) e catAvg = 0
    ∧ totalOf (calculate_transaction_bonuses [(e, [(d, totals)])] tc) e
        = BONUS_OVER_400 * (nOver 400 totals : ℚ)
            + BONUS_OVER_700 * (nOver 700 totals : ℚ) := by
  have havg : (if countOf tc e d ≠ 0 then totals.sum / (countOf tc e d : ℚ) else 0)
      = 0 := by
    rw [if_neg]
    simp [h]
  have htier : avgTier 0 = 0 := by
    rw [avgTier, if_neg (by norm_num), if_neg (by norm_num), if_neg (by norm_num)]
  obtain ⟨h1, -, -, h4⟩ := bonusStep_char tc ⟨[], []⟩ e d totals
  refine ⟨havg, ?_, ?_⟩
  · rw [engine_single, h4, havg, htier]
    show (0 : ℚ) + 0 = 0
    ring
  · rw [engine_single, h1, havg, htier]
    show (0 : ℚ) + _ + _ + 0 = _
    ring

/-! ## Header-location lemmas -/

theorem alistGet?_colStep (m : List (String × ℕ)) (p : ℕ × Cell) (lbl : String)
    (hlbl : lbl ≠ "") :
    alistGet? (colStep m p) lbl
      = if matchKey p.2 lbl then some p.1 else alistGet? m lbl := by
  rw [colStep, matchKey]
  by_cases he : p.2 = .empty
  · rw [if_pos he, if_pos he]
    simp
  · rw [if_neg he, if_neg he]
    by_cases hk : pyStrip p.2.toStr == ""
    · rw [if_pos hk]
      have hne : (pyStrip p.2.toStr == lbl) = false := by
        rw [beq_eq_false_iff_ne]
        intro hx
        exact hlbl (hx ▸ eq_of_beq hk)
      rw [hne]
      simp
    · rw [if_neg hk]
      by_cases hkl : pyStrip p.2.toStr = lbl
      · have hbeq : (pyStrip p.2.toStr == lbl) = true := beq_iff_eq.mpr hkl
        rw [hbeq, if_pos rfl, hkl, alistGet?_upd_self]
      · have hbeq : (pyStrip p.2.toStr == lbl) = false := beq_eq_false_iff_ne.mpr hkl
        rw [hbeq, if_neg (by simp), alistGet?_upd_ne _ _ _ _ _ (Ne.symm hkl)]

theorem getLast?_cons_or (a : α) (l : List α) :
    (a :: l).getLast? = l.getLast?.or (some a) := by
  induction l generalizing a with
  | nil => simp
  | cons b t ih =>
    rw [List.getLast?_cons_cons, ih b]
    cases t.getLast? <;> simp [Option.or]

theorem buildFold_get? (lbl : String) (hlbl : lbl ≠ "") (ps : List (ℕ × Cell)) :
    ∀ (m : List (String × ℕ)),
      alistGet? (ps.foldl colStep m) lbl
        = (((ps.filter (fun p => matchKey p.2 lbl)).map (·.1)).getLast?).or
            (alistGet? m lbl) := by
  induction ps with
  | nil =>
    intro m
    rw [List.foldl_nil, List.filter_nil, List.map_nil, List.getLast?_nil]
    cases alistGet? m lbl <;> rfl
  | cons p rest ih =>
    intro m
    rw [List.foldl_cons, ih (colStep m p), alistGet?_colStep m p lbl hlbl,
      List.filter_cons]
    by_cases hm : matchKey p.2 lbl
    · rw [if_pos (by simpa using hm), if_pos hm, List.map_cons, getLast?_cons_or]
      cases ((rest.filter (fun p => matchKey p.2 lbl)).map (·.1)).getLast? <;>
        simp [Option.or]
    · rw [if_neg (by simpa using hm), if_neg hm]

theorem buildColIdx_get? (row : List Cell) (lbl : String) (hlbl : lbl ≠ "") :
    alistGet? (buildColIdx row) lbl = lastMatchIdx row lbl := by
  rw [buildColIdx, buildFold_get? lbl hlbl row.enum [], lastMatchIdx, alistGet?_nil]
  cases ((row.enum.filter (fun p => matchKey p.2 lbl)).map (·.1)).getLast? <;>
    simp [Option.or]

theorem headerAccept_true (required : List String) (m : List (String × ℕ))
    (hreq : required ≠ [])
    (hacc : ∀ c ∈ required, (alistGet? m c).isSome) :
    headerAccept required m = true := by
  rw [headerAccept]
  have hall : required.all (fun c => (alistGet? m c).isSome) = true :=
    List.all_eq_true.mpr (fun c hc => by simpa using hacc c hc)
  have hne : m.isEmpty = false := by
    rcases required with _ | ⟨c, cs⟩
    · exact absurd rfl hreq
    · have hc := hacc c (List.mem_cons_self _ _)
      cases m with
      | nil => rw [alistGet?_nil] at hc; simp at hc
      | cons _ _ => rfl
  rw [hall, hne]
  rfl

theorem headerAccept_false (required : List String) (m : List (String × ℕ))
    (hmiss : ∃ c ∈ required, alistGet? m c = none) :
    headerAccept required m = false := by
  rw [headerAccept]
  obtain ⟨c, hc, hnone⟩ := hmiss
  have hall : required.all (fun c => (alistGet? m c).isSome) = false := by
    rw [List.all_eq_false]
    exact ⟨c, hc, by simp [hnone]⟩
  rw [hall]
  simp

theorem findHeaderGo_first (required : List String) (hreq : required ≠ []) :
    ∀ (sheet : List (List Cell)) (k i : ℕ) (rowk : List Cell),
      sheet[k]? = some rowk →
      (∀ c ∈ required, (alistGet? (buildColIdx rowk) c).isSome) →
      (∀ j rowj, j < k → sheet[j]? = some rowj →
        ∃ c ∈ required, alistGet? (buildColIdx rowj) c = none) →
      findHeaderGo required sheet i = .ok (i + k, buildColIdx rowk) := by
  intro sheet
  induction sheet with
  | nil =>
    intro k i rowk hk
    simp at hk
  | cons r rest ih =>
    intro k i rowk hk hacc hfirst
    cases k with
    | zero =>
      rw [List.getElem?_cons_zero] at hk
      injection hk with hk
      subst hk
      rw [findHeaderGo, if_pos (by rw [headerAccept_true required _ hreq hacc])]
      rw [Nat.add_zero]
    | succ k' =>
      have hr : headerAccept required (buildColIdx r) = false := by
        apply headerAccept_false
        exact hfirst 0 r (Nat.succ_pos k') (List.getElem?_cons_zero)
      rw [findHeaderGo, if_neg (by rw [hr]; exact Bool.false_ne_true)]
      have hk' : rest[k']? = some rowk := by
        rwa [List.getElem?_cons_succ] at hk
      have hfirst' : ∀ j rowj, j < k' → rest[j]? = some rowj →
          ∃ c ∈ required, alistGet? (buildColIdx rowj) c = none := by
        intro j rowj hj hjr
        exact hfirst (j + 1) rowj (Nat.succ_lt_succ hj)
          (by rwa [List.getElem?_cons_succ])
      have harith : i + 1 + k' = i + (k' + 1) := by omega
      rw [ih k' (i + 1) rowk hk' hacc hfirst', harith]

/-- C3: for a non-empty required-label set, if row `k` (0-based here; the
source reports `k+1`, its 1-based position) is the first row whose map of
non-empty, whitespace-stripped cell values contains every required label,
then `find_header_row` returns that row's 1-based index together with that
map, in which any label maps to the column of its last occurrence in the
row. -/
theorem header_search (sheet : List (List Cell)) (required : List String)
    (k : ℕ) (rowk : List Cell) (lbl : String)
    (hreq : required ≠ []) (hk : sheet[k]? = some rowk)
    (hacc : ∀ c ∈ required, (alistGet? (buildColIdx rowk) c).isSome)
    (hfirst : ∀ j rowj, j < k → sheet[j]? = some rowj →
      ∃ c ∈ required, alistGet? (buildColIdx rowj) c = none)
    (hlbl : lbl ≠ "") :
    find_header_row sheet required = .ok (k + 1, buildColIdx rowk)
    ∧ alistGet? (buildColIdx rowk) lbl = lastMatchIdx rowk lbl := by
  constructor
  · rw [find_header_row,
      findHeaderGo_first required hreq sheet k 1 rowk hk hacc hfirst,
      Nat.add_comm 1 k]
  · exact buildColIdx_get? rowk lbl hlbl

/-- C4 (amended): on a sheet in which no row's stripped cell values contain
the full required label set, `find_header_row` raises — but the `KeyError` it
raises carries only a fixed diagnostic message, not the set of required
labels (see the counterexample). -/
theorem header_absence (sheet : List (List Cell)) (required : List String)
    (h : ∀ row ∈ sheet, ∃ c ∈ required, alistGet? (buildColIdx row) c = none) :
    find_header_row sheet required = .error headerErrMsg := by
  rw [find_header_row]
  have haux : ∀ (sh : List (List Cell)) (i : ℕ),
      (∀ row ∈ sh, ∃ c ∈ required, alistGet? (buildColIdx row) c = none) →
      findHeaderGo required sh i = .error headerErrMsg := by
    intro sh
    induction sh with
    | nil => intro i _; rfl
    | cons r rest ih =>
      intro i hrow
      have hr : headerAccept required (buildColIdx r) = false :=
        headerAccept_false required _ (hrow r (List.mem_cons_self _ _))
      rw [findHeaderGo, if_neg (by rw [hr]; exact Bool.false_ne_true)]
      exact ih (i + 1) (fun row hmem => hrow row (List.mem_cons_of_mem r hmem))
  exact haux sheet 1 h

/-- C4 counterexample: a header-less sheet raises the header error, but the
surfaced error is the fixed message, which does not contain the required
label "מוכרן" — so the error does not carry the set of required labels as the
claim states. -/
theorem header_absence_counterexample :
    find_header_row [[Cell.str "שלום"]] REQUIRED_COLS = .error headerErrMsg
    ∧ ¬ List.IsInfix ("מוכרן" : String).data headerErrMsg.data := by
  constructor
  · rfl
  · decide

theorem extractRow_skip (cm : ColMap) (row : List Cell)
    (h : normalizeDate (readCell row cm.dateIdx) = none
      ∨ (readCell row cm.empIdx).truthy = false
      ∨ readCell row cm.unitIdx = .empty) :
    extractRow cm row = .ok none := by
  rw [extractRow]
  rcases hnd : normalizeDate (readCell row cm.dateIdx) with _ | d
  · rfl
  · have hcond : ¬((readCell row cm.empIdx).truthy = true
        ∧ readCell row cm.unitIdx ≠ Cell.empty) := by
      rcases h with h | h | h
      · rw [hnd] at h
        cases h
      · intro hc
        rw [h] at hc
        exact Bool.false_ne_true hc.1
      · intro hc
        exact hc.2 h
    show ((if (readCell row cm.empIdx).truthy = true
        ∧ readCell row cm.unitIdx ≠ Cell.empty then
        match cellMulQ (readCell row cm.unitIdx) (resolveQty cm row) with
        | some amt => Except.ok (some
            { emp := readCell row cm.empIdx, date := d,
              inv := readCell row cm.invIdx, amt := amt })
        | none => Except.error "TypeError"
      else Except.ok none) : Except String (Option LineItem)) = Except.ok none
    rw [if_neg hcond]

/-! ## Date-parser roundtrip lemmas -/

theorem option_bind_some (a : α) (f : α → Option β) : (some a >>= f) = f a := rfl

theorem dc_isDigit (a : ℕ) (ha : a ≤ 9) : (dc a).isDigit = true := by
  interval_cases a <;> decide

theorem digVal_dc (a : ℕ) (ha : a ≤ 9) : digVal (dc a) = a := by
  interval_cases a <;> decide

theorem dc_not_ws (a : ℕ) (ha : a ≤ 9) : (dc a).isWhitespace = false := by
  interval_cases a <;> decide

theorem dc_ne_slash (a : ℕ) (ha : a ≤ 9) : dc a ≠ '/' := by
  interval_cases a <;> decide

theorem daysInMonth_le_31 (y : ℤ) (m : ℕ) : daysInMonth y m ≤ 31 := by
  rw [daysInMonth]
  split
  · split <;> omega
  · split <;> omega

theorem matchD_pad2 (d : ℕ) (h1 : 1 ≤ d) (h31 : d ≤ 31) (rest : List Char) :
    matchD (dc (d / 10) :: dc (d % 10) :: rest) = some (d, rest) := by
  interval_cases d <;> rfl

theorem matchM_pad2 (m : ℕ) (h1 : 1 ≤ m) (h12 : m ≤ 12) (rest : List Char) :
    matchM (dc (m / 10) :: dc (m % 10) :: rest) = some (m, rest) := by
  interval_cases m <;> rfl

theorem matchH_pad2 (h : ℕ) (h23 : h ≤ 23) (rest : List Char) :
    matchH (dc (h / 10) :: dc (h % 10) :: rest) = some (h, rest) := by
  interval_cases h <;> rfl

theorem matchMin_pad2 (mi : ℕ) (h59 : mi ≤ 59) (rest : List Char) :
    matchMin (dc (mi / 10) :: dc (mi % 10) :: rest) = some (mi, rest) := by
  interval_cases mi <;> rfl

theorem matchY_pad4 (y : ℕ) (hy : y ≤ 9999) (rest : List Char) :
    matchY (dc (y / 1000) :: dc (y / 100 % 10) :: dc (y / 10 % 10) :: dc (y % 10)
      :: rest) = some (y, rest) := by
  have ha : y / 1000 ≤ 9 := by omega
  have hb : y / 100 % 10 ≤ 9 := by omega
  have hc : y / 10 % 10 ≤ 9 := by omega
  have he : y % 10 ≤ 9 := by omega
  rw [matchY, if_pos ⟨dc_isDigit _ ha, dc_isDigit _ hb, dc_isDigit _ hc, dc_isDigit _ he⟩,
    digVal_dc _ ha, digVal_dc _ hb, digVal_dc _ hc, digVal_dc _ he]
  have : y / 1000 * 1000 + y / 100 % 10 * 100 + y / 10 % 10 * 10 + y % 10 = y := by
    omega
  rw [this]

theorem matchLit_self (c : Char) (rest : List Char) :
    matchLit c (c :: rest) = some rest := by
  simp [matchLit]

theorem matchWs_digit (a : ℕ) (ha : a ≤ 9) (rest : List Char) :
    matchWs (' ' :: dc a :: rest) = some (dc a :: rest) := by
  rw [matchWs, if_pos (by decide), List.dropWhile_cons, dc_not_ws _ ha]
  rfl

theorem runDMY_pads (y m d : ℕ) (hd1 : 1 ≤ d) (hd31 : d ≤ 31) (hm1 : 1 ≤ m)
    (hm12 : m ≤ 12) (hy : y ≤ 9999) (rest : List Char) :
    runDMY (dc (d / 10) :: dc (d % 10) :: '/' :: dc (m / 10) :: dc (m % 10) :: '/'
      :: dc (y / 1000) :: dc (y / 100 % 10) :: dc (y / 10 % 10) :: dc (y % 10) :: rest)
      = some (d, m, y, rest) := by
  rw [runDMY, matchD_pad2 d hd1 hd31]
  simp only [option_bind_some]
  rw [matchLit_self]
  simp only [option_bind_some]
  rw [matchM_pad2 m hm1 hm12]
  simp only [option_bind_some]
  rw [matchLit_self]
  simp only [option_bind_some]
  rw [matchY_pad4 y hy]
  simp only [option_bind_some]
  rfl

theorem validDate_bounds (y m d : ℕ) (hv : validDate (y : ℤ) m d) :
    1 ≤ d ∧ d ≤ 31 ∧ 1 ≤ m ∧ m ≤ 12 ∧ y ≤ 9999 := by
  obtain ⟨h1, h2, h3, h4, h5, h6⟩ := hv
  have hd31 : d ≤ 31 := le_trans h6 (daysInMonth_le_31 _ _)
  have hy : y ≤ 9999 := by exact_mod_cast h2
  exact ⟨h5, hd31, h3, h4, hy⟩

theorem mkValidDate_ok (y m d : ℕ) (hv : validDate (y : ℤ) m d) :
    mkValidDate y m d = some ⟨(y : ℤ), m, d⟩ := by
  rw [mkValidDate, if_pos hv]

theorem fmtDMY_toList (y m d : ℕ) :
    (fmtDMY y m d).toList = dc (d / 10) :: dc (d % 10) :: '/' :: dc (m / 10)
      :: dc (m % 10) :: '/' :: dc (y / 1000) :: dc (y / 100 % 10) :: dc (y / 10 % 10)
      :: dc (y % 10) :: [] := rfl

theorem fmtYMD_toList (y m d : ℕ) :
    (fmtYMD y m d).toList = dc (y / 1000) :: dc (y / 100 % 10) :: dc (y / 10 % 10)
      :: dc (y % 10) :: '-' :: dc (m / 10) :: dc (m % 10) :: '-' :: dc (d / 10)
      :: dc (d % 10) :: [] := rfl

theorem fmtDMYHM_toList (y m d h mi : ℕ) :
    (fmtDMYHM y m d h mi).toList = dc (d / 10) :: dc (d % 10) :: '/' :: dc (m / 10)
      :: dc (m % 10) :: '/' :: dc (y / 1000) :: dc (y / 100 % 10) :: dc (y / 10 % 10)
      :: dc (y % 10) :: ' ' :: dc (h / 10) :: dc (h % 10) :: ':' :: dc (mi / 10)
      :: dc (mi % 10) :: [] := rfl

theorem strpDMY_roundtrip (y m d : ℕ) (hv : validDate (y : ℤ) m d) :
    strpDMY (fmtDMY y m d) = some ⟨(y : ℤ), m, d⟩ := by
  obtain ⟨hd1, hd31, hm1, hm12, hy⟩ := validDate_bounds y m d hv
  rw [strpDMY, fmtDMY_toList, runDMY_pads y m d hd1 hd31 hm1 hm12 hy []]
  simp only [option_bind_some]
  rw [if_pos List.isEmpty_nil, mkValidDate_ok y m d hv]

theorem strpDMYHM_roundtrip (y m d h mi : ℕ) (hv : validDate (y : ℤ) m d)
    (hh : h ≤ 23) (hmi : mi ≤ 59) :
    strpDMYHM (fmtDMYHM y m d h mi) = some ⟨(y : ℤ), m, d⟩ := by
  obtain ⟨hd1, hd31, hm1, hm12, hy⟩ := validDate_bounds y m d hv
  rw [strpDMYHM, fmtDMYHM_toList,
    runDMY_pads y m d hd1 hd31 hm1 hm12 hy
      (' ' :: dc (h / 10) :: dc (h % 10) :: ':' :: dc (mi / 10) :: dc (mi % 10) :: [])]
  simp only [option_bind_some]
  rw [matchWs_digit _ (by omega)]
  simp only [option_bind_some]
  rw [matchH_pad2 h hh]
  simp only [option_bind_some]
  rw [matchLit_self]
  simp only [option_bind_some]
  rw [matchMin_pad2 mi hmi]
  simp only [option_bind_some]
  rw [if_pos List.isEmpty_nil, mkValidDate_ok y m d hv]

theorem strpYMD_roundtrip (y m d : ℕ) (hv : validDate (y : ℤ) m d) :
    strpYMD (fmtYMD y m d) = some ⟨(y : ℤ), m, d⟩ := by
  obtain ⟨hd1, hd31, hm1, hm12, hy⟩ := validDate_bounds y m d hv
  rw [strpYMD, fmtYMD_toList, matchY_pad4 y hy]
  simp only [option_bind_some]
  rw [matchLit_self]
  simp only [option_bind_some]
  rw [matchM_pad2 m hm1 hm12]
  simp only [option_bind_some]
  rw [matchLit_self]
  simp only [option_bind_some]
  rw [matchD_pad2 d hd1 hd31]
  simp only [option_bind_some]
  rw [if_pos List.isEmpty_nil, mkValidDate_ok y m d hv]

theorem matchD_rest (s : List Char) (v : ℕ) (rest : List Char)
    (h : matchD s = some (v, rest)) : rest = s.drop 1 ∨ rest = s.drop 2 := by
  match s with
  | [] => rw [matchD] at h; cases h
  | [c1] =>
    rw [matchD] at h
    by_cases hc : '1' ≤ c1 ∧ c1 ≤ '9'
    · rw [if_pos hc] at h
      injection h with h
      injection h with _ h2
      exact Or.inl (by rw [← h2]; rfl)
    · rw [if_neg hc] at h
      cases h
  | c1 :: c2 :: s' =>
    rw [matchD] at h
    split at h
    · injection h with h
      injection h with _ h2
      exact Or.inr (by rw [← h2]; rfl)
    · split at h
      · injection h with h
        injection h with _ h2
        exact Or.inr (by rw [← h2]; rfl)
      · split at h
        · injection h with h
          injection h with _ h2
          exact Or.inr (by rw [← h2]; rfl)
        · split at h
          · injection h with h
            injection h with _ h2
            exact Or.inl (by rw [← h2]; rfl)
          · cases h

theorem strpDMYHM_fmtDMY (y m d : ℕ) (hv : validDate (y : ℤ) m d) :
    strpDMYHM (fmtDMY y m d) = none := by
  obtain ⟨hd1, hd31, hm1, hm12, hy⟩ := validDate_bounds y m d hv
  rw [strpDMYHM, fmtDMY_toList, runDMY, matchD_pad2 d hd1 hd31]
  simp only [option_bind_some]
  rw [matchLit_self]
  simp only [option_bind_some]
  rw [matchM_pad2 m hm1 hm12]
  simp only [option_bind_some]
  rw [matchLit_self]
  simp only [option_bind_some]
  rw [matchY_pad4 y hy]
  simp only [option_bind_some]
  rfl

theorem strpDMYHM_fmtYMD (y m d : ℕ) : strpDMYHM (fmtYMD y m d) = none := by
  rw [strpDMYHM, fmtYMD_toList, runDMY]
  rcases hmd : matchD (dc (y / 1000) :: dc (y / 100 % 10) :: dc (y / 10 % 10)
      :: dc (y % 10) :: '-' :: dc (m / 10) :: dc (m % 10) :: '-' :: dc (d / 10)
      :: dc (d % 10) :: []) with _ | p
  · rfl
  · obtain ⟨v, rest⟩ := p
    simp only [option_bind_some]
    have hlit : matchLit '/' rest = none := by
      rcases matchD_rest _ v rest hmd with h | h <;>
        · rw [h]
          simp only [List.drop_succ_cons, List.drop_zero]
          rw [matchLit, if_neg (dc_ne_slash _ (by omega))]
    rw [hlit]
    rfl

theorem rndHE_zero : rndHE 0 = 0 := by
  rw [rndHE]
  norm_num

theorem from_excel_int (n : ℤ) (hn : 61 ≤ n) :
    from_excel_date (n : ℚ) = serialDate n := by
  have hfl : ⌊(n : ℚ)⌋ = n := Int.floor_intCast n
  have hn' : (61 : ℚ) ≤ (n : ℚ) := by exact_mod_cast hn
  show civilFromDays (EPOCH_1900 + ⌊(n : ℚ)⌋
      + rndHE (((n : ℚ) - (⌊(n : ℚ)⌋ : ℚ)) * 86400) / 86400
      - (if (0 < (n : ℚ) ∧ (n : ℚ) < 1) ∨ (59 < (n : ℚ) ∧ (n : ℚ) < 61) then 1 else 0))
    = serialDate n
  have hfrac : ((n : ℚ) - (⌊(n : ℚ)⌋ : ℚ)) * 86400 = 0 := by
    rw [hfl]
    ring_nf
  rw [hfrac, rndHE_zero, hfl]
  rw [if_neg (by rintro (⟨-, h⟩ | ⟨-, h⟩) <;> linarith)]
  rw [serialDate]
  congr 1
  omega

/-- C5: date normalization follows the source's priority order — a native
date-time value contributes its date component; a numeric value is converted
as a spreadsheet serial (day 0 = the 1899-12-30 epoch; serials from 61 on,
the ones unambiguously denoting calendar dates in the 1900 system, map to
exactly the denoted date); a text value is tried against
`day/month/year hour:minute`, then `year-month-day`, then `day/month/year`,
the first success winning, and each format round-trips every representable
date; any string all three formats reject, and any other value (in particular
an empty cell), yields the failure `none` — the parser is a total function
and never raises. -/
theorem date_normalization :
    (∀ y m d : ℕ, validDate (y : ℤ) m d →
      parse_date (fmtDMY y m d) = some ⟨(y : ℤ), m, d⟩)
    ∧ (∀ y m d : ℕ, validDate (y : ℤ) m d →
      parse_date (fmtYMD y m d) = some ⟨(y : ℤ), m, d⟩)
    ∧ (∀ y m d h mi : ℕ, validDate (y : ℤ) m d → h ≤ 23 → mi ≤ 59 →
      parse_date (fmtDMYHM y m d h mi) = some ⟨(y : ℤ), m, d⟩)
    ∧ (∀ n : ℤ, 61 ≤ n → normalizeDate (.num (n : ℚ)) = some (serialDate n))
    ∧ (∀ s, strpDMYHM s = none → strpYMD s = none → strpDMY s = none →
        normalizeDate (.str s) = none)
    ∧ (∀ s dd, strpDMYHM s = some dd → parse_date s = some dd)
    ∧ normalizeDate .empty = none
    ∧ (∀ dd, normalizeDate (.date dd) = some dd) := by
  refine ⟨?_, ?_, ?_, ?_, ?_, ?_, rfl, fun dd => rfl⟩
  · intro y m d hv
    rw [parse_date, strpDMYHM_fmtDMY y m d hv, strpYMD]
    rcases hmy : matchY (fmtDMY y m d).toList with _ | p
    · rw [strpDMY_roundtrip y m d hv]
      rfl
    · obtain ⟨v, rest⟩ := p
      exfalso
      obtain ⟨hd1, hd31, -, -, -⟩ := validDate_bounds y m d hv
      rw [fmtDMY_toList, matchY] at hmy
      by_cases hdig : (dc (d / 10)).isDigit = true ∧ (dc (d % 10)).isDigit = true
        ∧ ('/' : Char).isDigit = true ∧ (dc (m / 10)).isDigit = true
      · exact absurd hdig.2.2.1 (by decide)
      · rw [if_neg hdig] at hmy
        cases hmy
  · intro y m d hv
    rw [parse_date, strpDMYHM_fmtYMD y m d, strpYMD_roundtrip y m d hv]
  · intro y m d h mi hv hh hmi
    rw [parse_date, strpDMYHM_roundtrip y m d h mi hv hh hmi]
  · intro n hn
    rw [normalizeDate, from_excel_int n hn]
  · intro s h1 h2 h3
    rw [normalizeDate, parse_date, h1, h2, h3]
  · intro s dd h
    rw [parse_date, h]

/-- C5 witness: the three formats round-trip 2024-01-05 (with 13:45 in the
timed format), serial 45292 normalizes to its denoted calendar date, and an
unparseable string yields the failure `none`. -/
theorem date_normalization_witness :
    parse_date (fmtDMY 2024 1 5) = some ⟨2024, 1, 5⟩
    ∧ parse_date (fmtYMD 2024 1 5) = some ⟨2024, 1, 5⟩
    ∧ parse_date (fmtDMYHM 2024 1 5 13 45) = some ⟨2024, 1, 5⟩
    ∧ normalizeDate (.num ((45292 : ℤ) : ℚ)) = some (serialDate 45292)
    ∧ normalizeDate (.str "hello") = none :=
  ⟨date_normalization.1 2024 1 5 (by decide),
   date_normalization.2.1 2024 1 5 (by decide),
   date_normalization.2.2.1 2024 1 5 13 45 (by decide) (by norm_num) (by norm_num),
   date_normalization.2.2.2.1 45292 (by norm_num),
   date_normalization.2.2.2.2.1 "hello" rfl rfl rfl⟩

/-- C9: a data row whose date fails to normalize, or whose employee cell is
falsy (in particular missing), or whose unit-price cell is missing, is
skipped silently: the row step neither raises nor changes any aggregation
state — it returns `per_invoice` (from which all transaction counts and daily
totals are later derived) unchanged. -/
theorem row_skip_atomic (cm : ColMap) (pi : PerInvoice) (row : List Cell)
    (h : normalizeDate (readCell row cm.dateIdx) = none
      ∨ (readCell row cm.empIdx).truthy = false
      ∨ readCell row cm.unitIdx = .empty) :
    aggStep cm pi row = .ok pi := by
  rw [aggStep, extractRow_skip cm row h]

/-! ## Witnesses -/

/-- C2 witness: the grouping characterization instantiated on the example
sheet's data rows. -/
theorem invoice_grouping_witness :
    dailyOf (sumPass piC1).2 empA dEx
      = (distinctInvoices (acceptedItems (mkColMap colIdxC1) (sheetC1.drop 1))
          empA dEx).map
          (fun inv => (amountsFor (acceptedItems (mkColMap colIdxC1) (sheetC1.drop 1))
            empA dEx inv).sum)
    ∧ countOf (sumPass piC1).1 empA dEx = (dailyOf (sumPass piC1).2 empA dEx).length
    ∧ (dailyOf (sumPass piC1).2 empA dEx).length
        = (invoicesSeen (acceptedItems (mkColMap colIdxC1) (sheetC1.drop 1))
            empA dEx).toFinset.card :=
  invoice_grouping (mkColMap colIdxC1) (sheetC1.drop 1) piC1
    (by rw [← piC1raw_eq]; rfl) empA dEx

/-- C3 witness: on a sheet with a decoy title row, the header is found at row
2 and the duplicated label "מוכרן" maps to its last occurrence. -/
theorem header_search_witness :
    find_header_row sheetC3 REQUIRED_COLS = .ok (2, buildColIdx rowC3)
    ∧ alistGet? (buildColIdx rowC3) "מוכרן" = lastMatchIdx rowC3 "מוכרן" := by
  refine header_search sheetC3 REQUIRED_COLS 1 rowC3 "מוכרן"
    (by decide) rfl (by decide) ?_ (by decide)
  intro j rowj hj hjr
  interval_cases j
  rw [show (sheetC3[0]? : Option (List Cell)) = some [Cell.str "שלום"] from rfl] at hjr
  injection hjr with hjr
  subst hjr
  exact ⟨"מספר חשבונית", by decide, by decide⟩

/-- C4 witness: a sheet with a single title row has no header row and the
fixed-message error is raised. -/
theorem header_absence_witness :
    find_header_row [[Cell.str "שלום"]] REQUIRED_COLS = .error headerErrMsg := by
  apply header_absence
  intro row hrow
  rw [List.mem_singleton] at hrow
  subst hrow
  exact ⟨"מספר חשבונית", by decide, by decide⟩

/-- C7 witness: an average of 100 earns no tier, and the single-day engine
equation instantiated at totals [141]. -/
theorem average_tier_exclusive_witness :
    avgTier 100 = 0
    ∧ detailOf (calculate_transaction_bonuses [(empA, [(dEx, [141])])] tcOne) empA catAvg
      = avgTier (if countOf tcOne empA dEx ≠ 0 then
          ([141] : List ℚ).sum / (countOf tcOne empA dEx : ℚ) else 0) :=
  ⟨average_tier_exclusive.2.1 100 (by norm_num),
   average_tier_exclusive.1 empA dEx [141] tcOne⟩

/-- C8 witness: a day with a 900 transaction but count 0 awards no
average-tier bonus and only the per-transaction amounts. -/
theorem zero_count_safe_witness :
    (if countOf [] empA dEx ≠ 0 then
        ([900] : List ℚ).sum / (countOf [] empA dEx : ℚ) else 0) = 0
    ∧ detailOf (calculate_transaction_bonuses [(empA, [(dEx, [900])])] []) empA catAvg = 0
    ∧ totalOf (calculate_transaction_bonuses [(empA, [(dEx, [900])])] []) empA
        = BONUS_OVER_400 * (nOver 400 [900] : ℚ)
            + BONUS_OVER_700 * (nOver 700 [900] : ℚ) :=
  zero_count_safe empA dEx [900] [] rfl

/-- C9 witness: a row with an empty employee cell leaves the state
untouched. -/
theorem row_skip_atomic_witness :
    aggStep (mkColMap colIdxC1) []
      [Cell.num 1, Cell.empty, Cell.date dEx, Cell.num 5, Cell.num 1] = .ok [] :=
  row_skip_atomic (mkColMap colIdxC1) [] _ (Or.inr (Or.inl rfl))

end SalesBonus
